import Mathlib

/-!
Verification development for the nyx-memory engagement persistence layer.

The definitions below are a shallow embedding of the TypeScript source:
pure functions become Lean functions, the on-disk state (state.json,
index.json, per-engagement metadata.json, evidence files) becomes an
explicit `Store` value threaded through the operations, and thrown
errors become `Except NyxError` results.  JavaScript string truthiness
(empty string is falsy) is modelled explicitly where the source relies
on it.  Timestamps (`new Date().toISOString()`) are passed in as a
string parameter `t`; all `now()` calls inside one operation yield the
same instant, which we model by using the same `t`.
-/

namespace Nyx

/-- JavaScript `a || b` for an optional string `a`: the default `b` is
used when `a` is absent or empty (empty strings are falsy in JS). -/
def jsOr (a : Option String) (b : String) : String :=
  match a with
  | some s => if s = "" then b else s
  | none => b

/-- JavaScript `a || null` for an optional string: an absent or empty
string becomes null. -/
def jsOrNull (a : Option String) : Option String :=
  match a with
  | some s => if s = "" then none else some s
  | none => none

/-! ### Decimal strings: JS `String(n)`, `parseInt`, `padStart` -/

/-- The ASCII digit character for a value below ten. -/
def digitChar (d : Nat) : Char := Char.ofNat (48 + d)

/-- Decimal digit list of a natural number, most significant first.
Models the JS template `String(n)` for a non-negative number. -/
def natDigits (n : Nat) : List Char :=
  if _h : n < 10 then [digitChar n]
  else natDigits (n / 10) ++ [digitChar (n % 10)]
  termination_by n
  decreasing_by
    exact Nat.div_lt_self (by omega) (by omega)

/-- Value of a digit character. -/
def charVal (c : Char) : Nat := c.toNat - 48

/-- Value of a list of decimal digit characters, most significant first. -/
def digitsVal (l : List Char) : Nat :=
  l.foldl (fun acc c => acc * 10 + charVal c) 0

/-- Decimal rendering of a natural number, modelling JS `String(n)`. -/
def jsNatStr (n : Nat) : String := String.mk (natDigits n)

/-- Decimal rendering of an integer, modelling JS `String(n)`. -/
def jsIntStr (i : Int) : String :=
  match i with
  | Int.ofNat n => jsNatStr n
  | Int.negSucc n => "-" ++ jsNatStr (n + 1)

/-- Whitespace skipped by JS `parseInt`. -/
def isSpaceChar (c : Char) : Bool :=
  decide (c = ' ' ∨ c = '\t' ∨ c = '\n' ∨ c = '\r')

/-- JS `parseInt(s, 10)`: skip whitespace, optional sign, then leading
decimal digits; `none` models `NaN` (no digits found). -/
def jsParseInt (s : String) : Option Int :=
  match s.data.dropWhile isSpaceChar with
  | [] => none
  | c :: rest =>
    if c = '-' then
      let ds := rest.takeWhile Char.isDigit
      if ds = [] then none else some (-(digitsVal ds : Int))
    else if c = '+' then
      let ds := rest.takeWhile Char.isDigit
      if ds = [] then none else some (digitsVal ds : Int)
    else
      let ds := (c :: rest).takeWhile Char.isDigit
      if ds = [] then none else some (digitsVal ds : Int)

/-- Replace the first occurrence of a (non-empty) pattern in a character
list, modelling JS `String.prototype.replace` with a string pattern. -/
def replaceFirstList (pat rep : List Char) : List Char → List Char
  | [] => []
  | c :: rest =>
    if pat.isPrefixOf (c :: rest) then rep ++ (c :: rest).drop pat.length
    else c :: replaceFirstList pat rep rest

/-- JS `s.replace(pat, rep)` for string `pat` (first occurrence only). -/
def replaceFirst (s pat rep : String) : String :=
  String.mk (replaceFirstList pat.data rep.data s.data)

/-- JS `s.padStart(3, "0")`. -/
def padStart3 (s : String) : String :=
  if s.data.length ≥ 3 then s
  else String.mk (List.replicate (3 - s.data.length) '0' ++ s.data)

/-! ### Data model (src/types.ts) -/

inductive Proto
  | tcp
  | udp
deriving DecidableEq, Repr

inductive Severity
  | critical
  | high
  | medium
  | low
  | info
deriving DecidableEq, Repr

inductive FStatus
  | confirmed
  | potential
  | exploited
  | false_positive
deriving DecidableEq, Repr

inductive EngStatus
  | active
  | paused
  | completed
deriving DecidableEq, Repr

structure Service where
  port : Nat
  proto : Proto
  service : String
  version : String
  notes : String
deriving DecidableEq, Repr

structure Host where
  ip : String
  hostname : String
  os : String
  first_seen : String
  updated_at : String
  services : List Service
  enumeration : String
  vulnerabilities : String
  exploitation : String
  post_exploitation : String
  credentials : String
  key_commands : String
deriving DecidableEq, Repr

structure Finding where
  id : String
  host : String
  vulnerability : String
  severity : Severity
  cvss : Option ℚ
  status : FStatus
  evidence_file : Option String
  notes : String
  created_at : String
  updated_at : String
deriving DecidableEq, Repr

inductive CredType
  | password
  | hash
  | token
  | key
  | certificate
deriving DecidableEq, Repr

structure Credential where
  id : String
  source : String
  username : String
  password_or_hash : String
  cred_type : CredType
  access_level : String
  verified : Bool
deriving DecidableEq, Repr

structure DeadEnd where
  timestamp : String
  technique : String
  target : String
  reason : String
deriving DecidableEq, Repr

inductive TPriority
  | high
  | medium
  | low
deriving DecidableEq, Repr

inductive TStatus
  | pending
  | completed
deriving DecidableEq, Repr

structure Todo where
  id : String
  description : String
  priority : TPriority
  status : TStatus
  created_at : String
  completed_at : Option String
deriving DecidableEq, Repr

structure EvidenceEntry where
  filename : String
  description : String
  related_finding_id : Option String
  created_at : String
deriving DecidableEq, Repr

inductive CmdSource
  | mcp
  | cli
  | nyxLog
deriving DecidableEq, Repr

structure CommandEntry where
  id : String
  command : String
  tool : String
  target : String
  started_at : String
  finished_at : String
  duration_seconds : Option ℚ
  exit_code : Option Int
  evidence_file : Option String
  parsed : Bool
  source : CmdSource
deriving DecidableEq, Repr

structure AttackPathStep where
  step : Nat
  description : String
  timestamp : String
deriving DecidableEq, Repr

structure EngagementMetadata where
  id : String
  target : String
  scope : List String
  rules_of_engagement : String
  status : EngStatus
  created_at : String
  updated_at : String
  executive_summary : String
  attack_path : List AttackPathStep
  findings : List Finding
  hosts : List Host
  credentials : List Credential
  dead_ends : List DeadEnd
  todos : List Todo
  evidence_index : List EvidenceEntry
  command_log : List CommandEntry
  schema_version : Nat
deriving DecidableEq, Repr

structure IndexEntry where
  id : String
  target : String
  status : EngStatus
  created_at : String
  updated_at : String
  finding_count : Nat
  host_count : Nat
  credential_count : Nat
  command_count : Nat
deriving DecidableEq, Repr

/-- Error taxonomy: the `code` values attached to thrown errors.
`nullMetadata` models the crash that follows when `readJSON` returns
the null default because an engagement's metadata file is missing. -/
inductive NyxError
  | noActiveEngagement
  | engagementNotFound
  | hostNotFound
  | findingNotFound
  | todoNotFound
  | invalidCvss
  | invalidFilename
  | unsupportedTool
  | fileNotFound
  | nullMetadata
deriving DecidableEq, Repr

/-- The on-disk state visible to the persistence layer: the active
engagement id (state.json), the engagement index (index.json), the
per-engagement metadata records (metadata.json, keyed by engagement
id), and the saved evidence files (keyed by path string).  Rendered
report files (FINDINGS.md, hosts/*.md) carry no state the operations
ever read back, so they are not tracked. -/
structure Store where
  active : Option String
  index : List IndexEntry
  metadataOf : String → Option EngagementMetadata
  files : String → Option String

/-! ### Storage primitives (src/storage/index.ts) -/

/-- `requireActiveEngagement`: the stored id, or `none` when unset or
empty (JS `if (!id) throw`). -/
def requireActiveId (store : Store) : Option String :=
  match store.active with
  | some i => if i = "" then none else some i
  | none => none

/-- First index entry with the given id (JS `Array.prototype.find`). -/
def findEntry : List IndexEntry → String → Option IndexEntry
  | [], _ => none
  | e :: rest, i => if e.id = i then some e else findEntry rest i

/-- `updateIndexEntry`: replace the first entry with a matching id, or
append when absent (JS `findIndex` then assignment or `push`). -/
def upsertEntry : List IndexEntry → IndexEntry → List IndexEntry
  | [], entry => [entry]
  | e :: rest, entry =>
    if e.id = entry.id then entry :: rest else e :: upsertEntry rest entry

/-- `loadActiveMetadata`: require the active engagement, then read its
metadata record. -/
def loadActiveMetadata (store : Store) : Except NyxError EngagementMetadata :=
  match requireActiveId store with
  | none => Except.error NyxError.noActiveEngagement
  | some i =>
    match store.metadataOf i with
    | none => Except.error NyxError.nullMetadata
    | some meta => Except.ok meta

/-! ### Engagement record manager (src/tools/engagement.ts) -/

/-- `buildIndexEntry`: the denormalized projection of a record. -/
def buildIndexEntry (meta : EngagementMetadata) : IndexEntry :=
  { id := meta.id
    target := meta.target
    status := meta.status
    created_at := meta.created_at
    updated_at := meta.updated_at
    finding_count := meta.findings.length
    host_count := meta.hosts.length
    credential_count := meta.credentials.length
    command_count := meta.command_log.length }

/-- `saveMetadataAndRender`: stamp `updated_at`, persist the record and
upsert its index entry.  The FINDINGS.md render writes a report file
the operations never read back; it is outside the modelled state. -/
def saveMetadataAndRender (store : Store) (meta : EngagementMetadata) (t : String) : Store :=
  let saved := { meta with updated_at := t }
  { store with
    metadataOf := fun i => if i = saved.id then some saved else store.metadataOf i
    index := upsertEntry store.index (buildIndexEntry saved) }

/-- Characters surviving the slug: ASCII lowercase letters and digits. -/
def isSlugChar (c : Char) : Bool :=
  decide (('a' ≤ c ∧ c ≤ 'z') ∨ ('0' ≤ c ∧ c ≤ '9'))

/-- Worker for the regex replace in `slugify`: the flag records
whether the scan is inside a run of non-alphanumeric characters (a run
emits a single hyphen at its first character). -/
def collapseRunsAux (inRun : Bool) : List Char → List Char
  | [] => []
  | c :: rest =>
    if isSlugChar c then c :: collapseRunsAux false rest
    else if inRun then collapseRunsAux true rest
    else '-' :: collapseRunsAux true rest

/-- The regex replace in `slugify`: every run of non-alphanumeric
characters becomes a single hyphen. -/
def collapseRuns (l : List Char) : List Char := collapseRunsAux false l

/-- The second regex replace in `slugify`: drop the single possible
leading hyphen and the single possible trailing hyphen. -/
def trimHyphens (l : List Char) : List Char :=
  let l1 := if l.head? = some '-' then l.tail else l
  if l1.getLast? = some '-' then l1.dropLast else l1

/-- `slugify`: lowercase, collapse non-alphanumeric runs to hyphens,
trim boundary hyphens, then truncate to 40 characters (in the source
the truncation comes last, after the trim). -/
def slugify (s : String) : String :=
  String.mk ((trimHyphens (collapseRuns (s.data.map Char.toLower))).take 40)

/-- The candidate engagement id before collision resolution. -/
def candidateId (date target : String) : String :=
  date ++ "-" ++ slugify target

/-- Whether some index entry already uses the id. -/
def idTaken (index : List IndexEntry) (i : String) : Bool :=
  index.any (fun e => e.id == i)

/-- The collision `while` loop of `createEngagement`: starting at
suffix `k`, find the first suffix whose id is unused.  The loop in the
source is unbounded; here it carries fuel, and `index.length + 1`
attempts provably suffice (pigeonhole). -/
def firstFreeSuffixAux (index : List IndexEntry) (candidate : String) : Nat → Nat → Nat
  | 0, k => k
  | fuel + 1, k =>
    if idTaken index (candidate ++ "-" ++ jsNatStr k) then
      firstFreeSuffixAux index candidate fuel (k + 1)
    else k

/-- Collision policy of `createEngagement`: keep the candidate when it
is unused, otherwise append the first unused numeric suffix from 2. -/
def resolveId (index : List IndexEntry) (candidate : String) : String :=
  if idTaken index candidate then
    candidate ++ "-" ++ jsNatStr (firstFreeSuffixAux index candidate (index.length + 1) 2)
  else candidate

/-- `makeEmptyMetadata`. -/
def makeEmptyMetadata (i target : String) (scope : List String) (roe : String) (ts : String) : EngagementMetadata :=
  { id := i
    target := target
    scope := scope
    rules_of_engagement := roe
    status := EngStatus.active
    created_at := ts
    updated_at := ts
    executive_summary := ""
    attack_path := []
    findings := []
    hosts := []
    credentials := []
    dead_ends := []
    todos := []
    evidence_index := []
    command_log := []
    schema_version := 1 }

/-- `createEngagement`: derive the id, write the empty record, upsert
the index entry, then activate the new engagement.  `date` is the ISO
date prefix taken from the clock. -/
def createEngagementS (store : Store) (target : String) (scope : List String)
    (roe : Option String) (date t : String) : Store × EngagementMetadata :=
  let i := resolveId store.index (candidateId date target)
  let meta := makeEmptyMetadata i target scope (jsOr roe "") t
  let store1 := { store with
    metadataOf := fun j => if j = i then some meta else store.metadataOf j }
  let store2 := { store1 with index := upsertEntry store1.index (buildIndexEntry meta) }
  let store3 := { store2 with active := some i }
  (store3, meta)

/-- Count of pending todos. -/
def countPending (todos : List Todo) : Nat :=
  (todos.filter (fun td => td.status == TStatus.pending)).length

/-- `resumeEngagement`: fail when no metadata record exists, otherwise
activate the engagement and report its open todo count. -/
def resumeEngagementS (store : Store) (i : String) :
    Store × Except NyxError (EngagementMetadata × Nat) :=
  match store.metadataOf i with
  | none => (store, Except.error NyxError.engagementNotFound)
  | some meta =>
    ({ store with active := some i }, Except.ok (meta, countPending meta.todos))

/-- The summary returned by `engagementStatus`. -/
structure StatusSummary where
  id : String
  target : String
  status : EngStatus
  findings_by_severity : Severity → Nat
  host_count : Nat
  credential_count : Nat
  evidence_count : Nat
  command_count : Nat
  open_todos : Nat
  recent_attack_path : List (Nat × String)

/-- `engagementStatus`: requires an active engagement. -/
def engagementStatusS (store : Store) : Store × Except NyxError StatusSummary :=
  match requireActiveId store with
  | none => (store, Except.error NyxError.noActiveEngagement)
  | some i =>
    match store.metadataOf i with
    | none => (store, Except.error NyxError.nullMetadata)
    | some meta =>
      (store, Except.ok
        { id := meta.id
          target := meta.target
          status := meta.status
          findings_by_severity := fun sv =>
            (meta.findings.filter (fun f => f.severity == sv)).length
          host_count := meta.hosts.length
          credential_count := meta.credentials.length
          evidence_count := meta.evidence_index.length
          command_count := meta.command_log.length
          open_todos := countPending meta.todos
          recent_attack_path :=
            (meta.attack_path.drop (meta.attack_path.length - 5)).map
              (fun s => (s.step, s.description)) })

/-- `closeEngagement`: requires an active engagement; sets the status
(default completed), optionally overwrites the executive summary,
persists, updates the index, and clears the active engagement. -/
def closeEngagementS (store : Store) (status : Option EngStatus)
    (executive_summary : Option String) (t : String) :
    Store × Except NyxError (String × EngStatus) :=
  match requireActiveId store with
  | none => (store, Except.error NyxError.noActiveEngagement)
  | some i =>
    match store.metadataOf i with
    | none => (store, Except.error NyxError.nullMetadata)
    | some meta =>
      let meta1 := { meta with
        status := status.getD EngStatus.completed
        updated_at := t
        executive_summary :=
          match executive_summary with
          | some s => if s = "" then meta.executive_summary else s
          | none => meta.executive_summary }
      let store1 := { store with
        metadataOf := fun j => if j = i then some meta1 else store.metadataOf j
        index := upsertEntry store.index (buildIndexEntry meta1) }
      let store2 := { store1 with active := none }
      (store2, Except.ok (meta1.id, meta1.status))

/-! ### Host discovery and additive service merge (src/tools/hosts.ts) -/

/-- The optional service fields of a `host_discover` call. -/
structure ServiceParam where
  port : Nat
  proto : Proto
  service : Option String := none
  version : Option String := none
  notes : Option String := none
deriving DecidableEq, Repr

/-- The parameters of `host_discover`. -/
structure DiscoverParams where
  ip : String
  hostname : Option String := none
  os : Option String := none
  services : Option (List ServiceParam) := none
deriving DecidableEq, Repr

/-- The incoming-service mapping in `discoverHost`: an omitted or empty
service name becomes "unknown", omitted version and notes become empty
strings. -/
def fillIncoming (s : ServiceParam) : Service :=
  { port := s.port
    proto := s.proto
    service := jsOr s.service "unknown"
    version := jsOr s.version ""
    notes := jsOr s.notes "" }

/-- The field update applied to a matching (port, protocol) entry in
`mergeServices`: each field is overwritten only when the incoming value
is non-empty (JS truthiness). -/
def updateMatch (svc m : Service) : Service :=
  { m with
    service := if svc.service = "" then m.service else svc.service
    version := if svc.version = "" then m.version else svc.version
    notes := if svc.notes = "" then m.notes else svc.notes }

/-- One step of `mergeServices`: update the first entry matching the
incoming (port, protocol) pair in place, or append the incoming entry
at the end when no entry matches. -/
def mergeOne : List Service → Service → List Service
  | [], svc => [svc]
  | m :: rest, svc =>
    if m.port = svc.port ∧ m.proto = svc.proto then updateMatch svc m :: rest
    else m :: mergeOne rest svc

/-- `mergeServices`: fold the incoming list over the existing one. -/
def mergeServices (existing incoming : List Service) : List Service :=
  incoming.foldl mergeOne existing

/-- First host with the given ip (JS `Array.prototype.find`). -/
def findHost : List Host → String → Option Host
  | [], _ => none
  | h :: rest, ip => if h.ip = ip then some h else findHost rest ip

/-- Replace the first host with the given ip (the in-place mutation of
the object returned by `find` in the source). -/
def setHost : List Host → String → Host → List Host
  | [], _, _ => []
  | x :: rest, ip, h => if x.ip = ip then h :: rest else x :: setHost rest ip h

/-- The re-discovery branch of `discoverHost`: hostname and OS are
filled only when currently empty and supplied non-empty, services are
merged additively, and `updated_at` is stamped. -/
def applyDiscover (host : Host) (p : DiscoverParams) (t : String) : Host :=
  let h1 := match p.hostname with
    | some hn => if hn ≠ "" ∧ host.hostname = "" then { host with hostname := hn } else host
    | none => host
  let h2 := match p.os with
    | some osName => if osName ≠ "" ∧ h1.os = "" then { h1 with os := osName } else h1
    | none => h1
  let h3 := match p.services with
    | some svcs => { h2 with services := mergeServices h2.services (svcs.map fillIncoming) }
    | none => h2
  { h3 with updated_at := t }

/-- The creation branch of `discoverHost`: missing optional fields
default to empty strings, services get the same incoming mapping. -/
def newHostOf (p : DiscoverParams) (t : String) : Host :=
  { ip := p.ip
    hostname := jsOr p.hostname ""
    os := jsOr p.os ""
    first_seen := t
    updated_at := t
    services := (p.services.getD []).map fillIncoming
    enumeration := ""
    vulnerabilities := ""
    exploitation := ""
    post_exploitation := ""
    credentials := ""
    key_commands := "" }

/-- `discoverHost`: load the active record, merge or create the host,
save, and return the host.  The per-host report render writes a file
the operations never read back. -/
def discoverHostS (store : Store) (p : DiscoverParams) (t : String) :
    Store × Except NyxError Host :=
  match loadActiveMetadata store with
  | Except.error e => (store, Except.error e)
  | Except.ok meta =>
    match findHost meta.hosts p.ip with
    | some host =>
      let host1 := applyDiscover host p t
      let meta1 := { meta with hosts := setHost meta.hosts p.ip host1 }
      (saveMetadataAndRender store meta1 t, Except.ok host1)
    | none =>
      let host1 := newHostOf p t
      let meta1 := { meta with hosts := meta.hosts ++ [host1] }
      (saveMetadataAndRender store meta1 t, Except.ok host1)

/-! ### Findings (src/tools/findings.ts) -/

/-- The numeric suffix of a finding id: JS
`parseInt(id.replace("F-", ""), 10)`. -/
def findingSuffix (i : String) : Option Int :=
  jsParseInt (replaceFirst i "F-" "")

/-- The maximum numeric suffix over existing findings, 0 when none
parse (NaN comparisons are false in JS). -/
def maxFindingSuffix (fs : List Finding) : Int :=
  fs.foldl
    (fun mx f =>
      match findingSuffix f.id with
      | some n => if n > mx then n else mx
      | none => mx)
    0

/-- `nextFindingId`: max existing numeric suffix plus one, zero-padded
to width 3. -/
def nextFindingId (fs : List Finding) : String :=
  "F-" ++ padStart3 (jsIntStr (maxFindingSuffix fs + 1))

/-- The id string generated for the n-th finding. -/
def findingIdString (n : Nat) : String := "F-" ++ padStart3 (jsNatStr n)

/-- The parameters of `finding_add`. -/
structure AddFindingParams where
  host : String
  vulnerability : String
  severity : Severity
  cvss : Option ℚ := none
  status : Option FStatus := none
  evidence_file : Option String := none
  notes : Option String := none
deriving DecidableEq, Repr

/-- Whether a supplied CVSS value fails the range check. -/
def cvssBad (c : Option ℚ) : Bool :=
  match c with
  | some v => decide (v < 0 ∨ v > 10)
  | none => false

/-- The pure state transition of `addFinding` on the loaded record (id
generation, CVSS validation, construction, push); the `updated_at`
stamp happens in the save path. -/
def addFindingCore (meta : EngagementMetadata) (p : AddFindingParams) (t : String) :
    Except NyxError (EngagementMetadata × Finding) :=
  let i := nextFindingId meta.findings
  if cvssBad p.cvss then Except.error NyxError.invalidCvss
  else
    let f : Finding :=
      { id := i
        host := p.host
        vulnerability := p.vulnerability
        severity := p.severity
        cvss := p.cvss
        status := p.status.getD FStatus.confirmed
        evidence_file := jsOrNull p.evidence_file
        notes := jsOr p.notes ""
        created_at := t
        updated_at := t }
    Except.ok ({ meta with findings := meta.findings ++ [f] }, f)

/-- `addFinding` at the store level: load, transform, save. -/
def addFindingS (store : Store) (p : AddFindingParams) (t : String) :
    Store × Except NyxError Finding :=
  match loadActiveMetadata store with
  | Except.error e => (store, Except.error e)
  | Except.ok meta =>
    match addFindingCore meta p t with
    | Except.error e => (store, Except.error e)
    | Except.ok (meta1, f) => (saveMetadataAndRender store meta1 t, Except.ok f)

/-- The parameters of `finding_update`. -/
structure UpdateFindingParams where
  id : String
  severity : Option Severity := none
  cvss : Option ℚ := none
  status : Option FStatus := none
  evidence_file : Option String := none
  notes : Option String := none
deriving DecidableEq, Repr

/-- First finding with the given id (JS `Array.prototype.find`). -/
def findFinding : List Finding → String → Option Finding
  | [], _ => none
  | f :: rest, i => if f.id = i then some f else findFinding rest i

/-- Replace the first finding with the given id (the in-place mutation
of the object returned by `find` in the source). -/
def setFinding : List Finding → String → Finding → List Finding
  | [], _, _ => []
  | x :: rest, i, f => if x.id = i then f :: rest else x :: setFinding rest i f

/-- The field updates of `updateFinding` after the CVSS check: status
and severity are enums (always truthy when supplied), an empty
evidence filename is falsy and ignored, notes append. -/
def updateFindingRest (q : UpdateFindingParams) (t : String) (f : Finding) : Finding :=
  let f1 := match q.status with
    | some s => { f with status := s }
    | none => f
  let f2 := match q.evidence_file with
    | some e => if e = "" then f1 else { f1 with evidence_file := some e }
    | none => f1
  let f3 := match q.notes with
    | some n =>
      if n = "" then f2
      else if f2.notes = "" then { f2 with notes := n }
      else { f2 with notes := f2.notes ++ "\n\n" ++ n }
    | none => f2
  { f3 with updated_at := t }

/-- The pure state transition of `updateFinding` on the loaded record:
find the finding, apply severity, validate any supplied CVSS (the
error is thrown before the save path runs), apply the remaining
fields, and write the finding back. -/
def updateFindingCore (meta : EngagementMetadata) (q : UpdateFindingParams) (t : String) :
    Except NyxError (EngagementMetadata × Finding) :=
  match findFinding meta.findings q.id with
  | none => Except.error NyxError.findingNotFound
  | some f0 =>
    let f1 := match q.severity with
      | some s => { f0 with severity := s }
      | none => f0
    match q.cvss with
    | some c =>
      if c < 0 ∨ c > 10 then Except.error NyxError.invalidCvss
      else
        let f4 := updateFindingRest q t { f1 with cvss := some c }
        Except.ok ({ meta with findings := setFinding meta.findings q.id f4 }, f4)
    | none =>
      let f4 := updateFindingRest q t f1
      Except.ok ({ meta with findings := setFinding meta.findings q.id f4 }, f4)

/-- `updateFinding` at the store level: load, transform, save. -/
def updateFindingS (store : Store) (q : UpdateFindingParams) (t : String) :
    Store × Except NyxError Finding :=
  match loadActiveMetadata store with
  | Except.error e => (store, Except.error e)
  | Except.ok meta =>
    match updateFindingCore meta q t with
    | Except.error e => (store, Except.error e)
    | Except.ok (meta1, f) => (saveMetadataAndRender store meta1 t, Except.ok f)

/-- An operation against the findings collection of one record. -/
inductive FOp
  | add (p : AddFindingParams)
  | update (q : UpdateFindingParams)

/-- One findings operation on the persisted record: on success the
record advances (with the save-path `updated_at` stamp) and an add
reports its assigned id; on error the persisted record is unchanged
because the error is thrown before the save path. -/
def stepFindingOp (t : String) (meta : EngagementMetadata) (op : FOp) :
    EngagementMetadata × Option String :=
  match op with
  | FOp.add p =>
    match addFindingCore meta p t with
    | Except.ok (m1, f) => ({ m1 with updated_at := t }, some f.id)
    | Except.error _ => (meta, none)
  | FOp.update q =>
    match updateFindingCore meta q t with
    | Except.ok (m1, _) => ({ m1 with updated_at := t }, none)
    | Except.error _ => (meta, none)

/-- Run a sequence of findings operations, collecting the ids returned
by the successful adds. -/
def runFindingOps (t : String) : EngagementMetadata → List FOp → EngagementMetadata × List (Option String)
  | meta, [] => (meta, [])
  | meta, op :: rest =>
    let s := stepFindingOp t meta op
    let r := runFindingOps t s.1 rest
    (r.1, s.2 :: r.2)

/-- Whether an operation is a `finding_add` that passes the CVSS
check, hence succeeds and is assigned an id. -/
def isValidAdd (op : FOp) : Bool :=
  match op with
  | FOp.add p => ! cvssBad p.cvss
  | FOp.update _ => false

/-! ### Evidence (src/tools/evidence.ts) -/

/-- The parameters of `evidence_save`. -/
structure EvidenceParams where
  filename : String
  content : String
  description : Option String := none
  related_finding_id : Option String := none
deriving DecidableEq, Repr

/-- The path-separator check of `saveEvidence`:
`filename.includes("/") || filename.includes("\\")`. -/
def hasPathSep (s : String) : Bool :=
  s.data.contains '/' || s.data.contains '\\'

/-- The path of a saved evidence file inside the engagement's storage
namespace (`path.join(engDir, "evidence", filename)`). -/
def evidencePath (engId filename : String) : String :=
  engId ++ "/evidence/" ++ filename

/-- Replace the first evidence entry with a matching filename, or
append when absent (JS `findIndex` then assignment or `push`). -/
def upsertEvidence : List EvidenceEntry → EvidenceEntry → List EvidenceEntry
  | [], entry => [entry]
  | e :: rest, entry =>
    if e.filename = entry.filename then entry :: rest else e :: upsertEvidence rest entry

/-- The number of evidence-index entries recorded under a filename. -/
def countFilename (l : List EvidenceEntry) (fn : String) : Nat :=
  (l.filter (fun e => e.filename == fn)).length

/-- `saveEvidence`: reject filenames containing path separators,
require the active engagement, record whether the file already existed,
write the content atomically, upsert the evidence-index entry by
filename, and save. -/
def saveEvidenceS (store : Store) (p : EvidenceParams) (t : String) :
    Store × Except NyxError (EvidenceEntry × Bool) :=
  if hasPathSep p.filename then (store, Except.error NyxError.invalidFilename)
  else
    match loadActiveMetadata store with
    | Except.error e => (store, Except.error e)
    | Except.ok meta =>
      let key := evidencePath meta.id p.filename
      let overwritten := (store.files key).isSome
      let store1 := { store with
        files := fun k => if k = key then some p.content else store.files k }
      let entry : EvidenceEntry :=
        { filename := p.filename
          description := jsOr p.description p.filename
          related_finding_id := jsOrNull p.related_finding_id
          created_at := t }
      let meta1 := { meta with evidence_index := upsertEvidence meta.evidence_index entry }
      (saveMetadataAndRender store1 meta1 t, Except.ok (entry, overwritten))

/-! ### Derived views used in statements -/

/-- The (port, protocol) keys of a service list, in order. -/
def svcKeys (l : List Service) : List (Nat × Proto) :=
  l.map (fun s => (s.port, s.proto))

/-- The ids of a finding list, in order. -/
def idsOf (fs : List Finding) : List String :=
  fs.map (fun f => f.id)

/-- The ids `finding_add` assigns to the first `k` findings of a fresh
record: F-001, F-002, and so on. -/
def genFindingIds (k : Nat) : List String :=
  (List.range k).map (fun i => findingIdString (i + 1))

/-! ### Concrete sample state for witnesses and counterexamples -/

/-- A known service: port 80/tcp named "http". -/
def sampleService : Service :=
  { port := 80, proto := Proto.tcp, service := "http", version := "1.0", notes := "n" }

/-- A known host holding `sampleService`. -/
def sampleHost : Host :=
  { ip := "10.0.0.1"
    hostname := "gw"
    os := "linux"
    first_seen := "T0"
    updated_at := "T0"
    services := [sampleService]
    enumeration := ""
    vulnerabilities := ""
    exploitation := ""
    post_exploitation := ""
    credentials := ""
    key_commands := "" }

/-- A known finding with id F-001. -/
def sampleFinding : Finding :=
  { id := "F-001"
    host := "10.0.0.1"
    vulnerability := "SQLi"
    severity := Severity.critical
    cvss := none
    status := FStatus.confirmed
    evidence_file := none
    notes := ""
    created_at := "T0"
    updated_at := "T0" }

/-- A sample engagement record holding the sample host and finding. -/
def sampleMeta : EngagementMetadata :=
  { makeEmptyMetadata "e1" "Test Corp" ["10.0.0.0/24"] "" "T0" with
    findings := [sampleFinding]
    hosts := [sampleHost] }

/-- A store whose active engagement is the sample record. -/
def sampleStore : Store :=
  { active := some "e1"
    index := []
    metadataOf := fun i => if i = "e1" then some sampleMeta else none
    files := fun _ => none }

/-- A re-discovery of the sample host that names ports 80 and 443 but
omits the optional service fields of port 80. -/
def cexDiscoverParams : DiscoverParams :=
  { ip := "10.0.0.1"
    services := some [{ port := 80, proto := Proto.tcp }] }

/-- A target whose slug is exactly 40 characters after truncation:
39 letters, then a separator, then one more letter. -/
def cexTarget : String :=
  String.mk (List.replicate 39 'a' ++ [' ', 'b'])

/-! ## Lemmas about the index upsert -/

theorem findEntry_upsertEntry (idx : List IndexEntry) (entry : IndexEntry) :
    findEntry (upsertEntry idx entry) entry.id = some entry := by
  induction idx with
  | nil => simp [upsertEntry, findEntry]
  | cons e rest ih =>
    by_cases h : e.id = entry.id
    · simp [upsertEntry, findEntry, h]
    · simp [upsertEntry, findEntry, h, ih]

theorem mem_upsertEntry_of_ne (idx : List IndexEntry) (entry e : IndexEntry)
    (hmem : e ∈ idx) (hne : e.id ≠ entry.id) : e ∈ upsertEntry idx entry := by
  induction idx with
  | nil => cases hmem
  | cons x rest ih =>
    rcases List.mem_cons.mp hmem with hx | hx
    · subst hx
      by_cases h : e.id = entry.id
      · exact absurd h hne
      · simp [upsertEntry, h]
    · by_cases h : x.id = entry.id
      · simp [upsertEntry, h, List.mem_cons, hx]
      · simp only [upsertEntry, h, if_false, List.mem_cons]
        exact Or.inr (ih hx)

/-- C4: after the universal save path `saveMetadataAndRender`, the
index entry stored for the engagement equals the denormalized
projection `buildIndexEntry` of the record that was persisted: the
four counts equal the lengths of the corresponding collections, and
id, target, status, and both timestamps match the record. -/
theorem C4_index_matches_record (store : Store) (meta : EngagementMetadata) (t : String) :
    (saveMetadataAndRender store meta t).metadataOf meta.id =
      some { meta with updated_at := t } ∧
    findEntry (saveMetadataAndRender store meta t).index meta.id =
      some (buildIndexEntry { meta with updated_at := t }) ∧
    (buildIndexEntry { meta with updated_at := t }).finding_count =
      ({ meta with updated_at := t } : EngagementMetadata).findings.length ∧
    (buildIndexEntry { meta with updated_at := t }).host_count =
      ({ meta with updated_at := t } : EngagementMetadata).hosts.length ∧
    (buildIndexEntry { meta with updated_at := t }).credential_count =
      ({ meta with updated_at := t } : EngagementMetadata).credentials.length ∧
    (buildIndexEntry { meta with updated_at := t }).command_count =
      ({ meta with updated_at := t } : EngagementMetadata).command_log.length ∧
    (buildIndexEntry { meta with updated_at := t }).id =
      ({ meta with updated_at := t } : EngagementMetadata).id ∧
    (buildIndexEntry { meta with updated_at := t }).target =
      ({ meta with updated_at := t } : EngagementMetadata).target ∧
    (buildIndexEntry { meta with updated_at := t }).status =
      ({ meta with updated_at := t } : EngagementMetadata).status ∧
    (buildIndexEntry { meta with updated_at := t }).created_at =
      ({ meta with updated_at := t } : EngagementMetadata).created_at ∧
    (buildIndexEntry { meta with updated_at := t }).updated_at =
      ({ meta with updated_at := t } : EngagementMetadata).updated_at := by
  refine ⟨?_, ?_, rfl, rfl, rfl, rfl, rfl, rfl, rfl, rfl, rfl⟩
  · simp [saveMetadataAndRender]
  · exact findEntry_upsertEntry store.index (buildIndexEntry { meta with updated_at := t })

/-- C10: when `finding_add` or `finding_update` fails the CVSS range
check, the error is raised before the save path, so the persisted
store (detail record, index, evidence files, active id) is unchanged. -/
theorem C10_invalid_cvss_is_atomic (store : Store) (p : AddFindingParams)
    (q : UpdateFindingParams) (t : String) :
    ((addFindingS store p t).2 = Except.error NyxError.invalidCvss →
      (addFindingS store p t).1 = store) ∧
    ((updateFindingS store q t).2 = Except.error NyxError.invalidCvss →
      (updateFindingS store q t).1 = store) := by
  constructor
  · intro h
    unfold addFindingS at h ⊢
    cases hload : loadActiveMetadata store with
    | error e => simp [hload]
    | ok meta =>
      simp only [hload] at h ⊢
      cases hcore : addFindingCore meta p t with
      | error e => simp [hcore]
      | ok pr => simp [hcore] at h
  · intro h
    unfold updateFindingS at h ⊢
    cases hload : loadActiveMetadata store with
    | error e => simp [hload]
    | ok meta =>
      simp only [hload] at h ⊢
      cases hcore : updateFindingCore meta q t with
      | error e => simp [hcore]
      | ok pr => simp [hcore] at h

theorem C10_invalid_cvss_is_atomic_witness :
    (addFindingS sampleStore
        { host := "10.0.0.1", vulnerability := "x", severity := Severity.low, cvss := some 11 }
        "T1").1 = sampleStore ∧
    (updateFindingS sampleStore { id := "F-001", cvss := some 11 } "T1").1 = sampleStore :=
  ⟨(C10_invalid_cvss_is_atomic sampleStore
      { host := "10.0.0.1", vulnerability := "x", severity := Severity.low, cvss := some 11 }
      { id := "F-001", cvss := some 11 } "T1").1 rfl,
   (C10_invalid_cvss_is_atomic sampleStore
      { host := "10.0.0.1", vulnerability := "x", severity := Severity.low, cvss := some 11 }
      { id := "F-001", cvss := some 11 } "T1").2 rfl⟩

/-! ## Lemmas about the additive service merge -/

theorem updateMatch_port (svc m : Service) : (updateMatch svc m).port = m.port := rfl

theorem updateMatch_proto (svc m : Service) : (updateMatch svc m).proto = m.proto := rfl

theorem mergeOne_length (l : List Service) (svc : Service) :
    l.length ≤ (mergeOne l svc).length := by
  induction l with
  | nil => simp [mergeOne]
  | cons m rest ih =>
    by_cases h : m.port = svc.port ∧ m.proto = svc.proto
    · simp [mergeOne, h]
    · simp only [mergeOne, h, if_false, List.length_cons]
      omega

theorem mergeServices_length (incoming : List Service) :
    ∀ existing : List Service,
      existing.length ≤ (mergeServices existing incoming).length := by
  induction incoming with
  | nil => intro existing; simp [mergeServices]
  | cons svc rest ih =>
    intro existing
    have h1 := mergeOne_length existing svc
    have h2 := ih (mergeOne existing svc)
    calc existing.length ≤ (mergeOne existing svc).length := h1
      _ ≤ (mergeServices (mergeOne existing svc) rest).length := h2

theorem mergeOne_cons (m : Service) (rest : List Service) (svc : Service) :
    mergeOne (m :: rest) svc =
      if m.port = svc.port ∧ m.proto = svc.proto then updateMatch svc m :: rest
      else m :: mergeOne rest svc := rfl

theorem svcKeys_cons (a : Service) (l : List Service) :
    svcKeys (a :: l) = (a.port, a.proto) :: svcKeys l := rfl

theorem svcKeys_mergeOne_subset (l : List Service) (svc : Service) :
    ∀ x ∈ svcKeys (mergeOne l svc), x ∈ svcKeys l ∨ x = (svc.port, svc.proto) := by
  induction l with
  | nil => simp [mergeOne, svcKeys]
  | cons m rest ih =>
    intro x hx
    by_cases h : m.port = svc.port ∧ m.proto = svc.proto
    · rw [mergeOne_cons, if_pos h, svcKeys_cons, updateMatch_port, updateMatch_proto] at hx
      rcases List.mem_cons.mp hx with hx | hx
      · exact Or.inl (by rw [svcKeys_cons, hx]; exact List.mem_cons_self _ _)
      · exact Or.inl (by rw [svcKeys_cons]; exact List.mem_cons_of_mem _ hx)
    · rw [mergeOne_cons, if_neg h, svcKeys_cons] at hx
      rcases List.mem_cons.mp hx with hx | hx
      · exact Or.inl (by rw [svcKeys_cons, hx]; exact List.mem_cons_self _ _)
      · rcases ih x hx with h1 | h1
        · exact Or.inl (by rw [svcKeys_cons]; exact List.mem_cons_of_mem _ h1)
        · exact Or.inr h1

theorem svcKeys_mergeOne_nodup (l : List Service) (svc : Service)
    (hnd : (svcKeys l).Nodup) : (svcKeys (mergeOne l svc)).Nodup := by
  induction l with
  | nil => simp [mergeOne, svcKeys]
  | cons m rest ih =>
    rw [svcKeys_cons, List.nodup_cons] at hnd
    by_cases h : m.port = svc.port ∧ m.proto = svc.proto
    · rw [mergeOne_cons, if_pos h, svcKeys_cons, updateMatch_port, updateMatch_proto,
        List.nodup_cons]
      exact ⟨hnd.1, hnd.2⟩
    · rw [mergeOne_cons, if_neg h, svcKeys_cons, List.nodup_cons]
      refine ⟨?_, ih hnd.2⟩
      intro hmem
      rcases svcKeys_mergeOne_subset rest svc _ hmem with h1 | h1
      · exact hnd.1 h1
      · apply h
        exact ⟨congrArg Prod.fst h1, congrArg Prod.snd h1⟩

theorem svcKeys_mergeServices_nodup (incoming : List Service) :
    ∀ existing : List Service, (svcKeys existing).Nodup →
      (svcKeys (mergeServices existing incoming)).Nodup := by
  induction incoming with
  | nil => intro existing h; exact h
  | cons svc rest ih =>
    intro existing h
    exact ih (mergeOne existing svc) (svcKeys_mergeOne_nodup existing svc h)

theorem applyDiscover_services (host : Host) (p : DiscoverParams) (t : String) :
    (applyDiscover host p t).services =
      (match p.services with
       | some svcs => mergeServices host.services (svcs.map fillIncoming)
       | none => host.services) := by
  unfold applyDiscover
  cases p.hostname <;> cases p.os <;> cases p.services <;> simp <;> split_ifs <;> rfl

theorem applyDiscover_hostname (host : Host) (p : DiscoverParams) (t : String)
    (h : p.hostname = none) : (applyDiscover host p t).hostname = host.hostname := by
  unfold applyDiscover
  rw [h]
  cases p.os <;> cases p.services <;> simp <;> split_ifs <;> rfl

theorem applyDiscover_os (host : Host) (p : DiscoverParams) (t : String)
    (h : p.os = none) : (applyDiscover host p t).os = host.os := by
  unfold applyDiscover
  rw [h]
  cases p.hostname <;> cases p.services <;> simp <;> split_ifs <;> rfl

theorem discoverHostS_found (store : Store) (p : DiscoverParams) (t : String)
    (meta : EngagementMetadata) (host : Host)
    (hload : loadActiveMetadata store = Except.ok meta)
    (hfound : findHost meta.hosts p.ip = some host) :
    discoverHostS store p t =
      (saveMetadataAndRender store
        { meta with hosts := setHost meta.hosts p.ip (applyDiscover host p t) } t,
       Except.ok (applyDiscover host p t)) := by
  unfold discoverHostS
  simp only [hload, hfound]

/-- C2: re-discovering an already-known host never duplicates a
(port, protocol) pair, never shrinks the service list, and leaves
hostname and OS untouched when the call omits them. -/
theorem C2_rediscovery_invariants (store : Store) (p : DiscoverParams) (t : String)
    (meta : EngagementMetadata) (host : Host)
    (hload : loadActiveMetadata store = Except.ok meta)
    (hfound : findHost meta.hosts p.ip = some host) :
    (discoverHostS store p t).2 = Except.ok (applyDiscover host p t) ∧
    ((svcKeys host.services).Nodup → (svcKeys (applyDiscover host p t).services).Nodup) ∧
    host.services.length ≤ (applyDiscover host p t).services.length ∧
    (p.hostname = none → (applyDiscover host p t).hostname = host.hostname) ∧
    (p.os = none → (applyDiscover host p t).os = host.os) := by
  refine ⟨?_, ?_, ?_, applyDiscover_hostname host p t, applyDiscover_os host p t⟩
  · rw [discoverHostS_found store p t meta host hload hfound]
  · intro hnd
    rw [applyDiscover_services]
    cases p.services with
    | none => exact hnd
    | some svcs => exact svcKeys_mergeServices_nodup (svcs.map fillIncoming) host.services hnd
  · rw [applyDiscover_services]
    cases p.services with
    | none => exact Nat.le_refl _
    | some svcs => exact mergeServices_length (svcs.map fillIncoming) host.services

theorem C2_rediscovery_invariants_witness :
    (svcKeys (applyDiscover sampleHost cexDiscoverParams "T1").services).Nodup ∧
    sampleHost.services.length ≤ (applyDiscover sampleHost cexDiscoverParams "T1").services.length :=
  ⟨(C2_rediscovery_invariants sampleStore cexDiscoverParams "T1" sampleMeta sampleHost
      rfl rfl).2.1 (by decide),
   (C2_rediscovery_invariants sampleStore cexDiscoverParams "T1" sampleMeta sampleHost
      rfl rfl).2.2.1⟩

theorem mergeOne_append (pre post : List Service) (e svc : Service)
    (hpre : ∀ m ∈ pre, ¬(m.port = svc.port ∧ m.proto = svc.proto))
    (hkey : e.port = svc.port ∧ e.proto = svc.proto) :
    mergeOne (pre ++ e :: post) svc = pre ++ updateMatch svc e :: post := by
  induction pre with
  | nil => rw [List.nil_append, mergeOne_cons, if_pos hkey, List.nil_append]
  | cons m rest ih =>
    rw [List.cons_append, mergeOne_cons, if_neg (hpre m (List.mem_cons_self _ _)),
      ih (fun x hx => hpre x (List.mem_cons_of_mem _ hx)), List.cons_append]

theorem fillIncoming_port (sp : ServiceParam) : (fillIncoming sp).port = sp.port := rfl

theorem fillIncoming_proto (sp : ServiceParam) : (fillIncoming sp).proto = sp.proto := rfl

theorem updateMatch_fillIncoming_service (sp : ServiceParam) (e : Service) :
    (updateMatch (fillIncoming sp) e).service =
      (match sp.service with
       | some s => if s = "" then "unknown" else s
       | none => "unknown") := by
  show (if jsOr sp.service "unknown" = "" then e.service else jsOr sp.service "unknown") = _
  cases hs : sp.service with
  | none => simp [jsOr]
  | some s =>
    by_cases h : s = "" <;> simp [jsOr, h]

theorem updateMatch_fillIncoming_version (sp : ServiceParam) (e : Service) :
    (updateMatch (fillIncoming sp) e).version =
      (match sp.version with
       | some v => if v = "" then e.version else v
       | none => e.version) := by
  show (if jsOr sp.version "" = "" then e.version else jsOr sp.version "") = _
  cases hs : sp.version with
  | none => simp [jsOr]
  | some v =>
    by_cases h : v = "" <;> simp [jsOr, h]

theorem updateMatch_fillIncoming_notes (sp : ServiceParam) (e : Service) :
    (updateMatch (fillIncoming sp) e).notes =
      (match sp.notes with
       | some n => if n = "" then e.notes else n
       | none => e.notes) := by
  show (if jsOr sp.notes "" = "" then e.notes else jsOr sp.notes "") = _
  cases hs : sp.notes with
  | none => simp [jsOr]
  | some n =>
    by_cases h : n = "" <;> simp [jsOr, h]

/-- C1 (amended): on re-discovery of a known host, a matching
(port, protocol) entry keeps its version and notes unless the incoming
value is non-empty, but its service-name field is replaced by the
incoming name or by the default "unknown" when the caller omits the
name or supplies an empty one — an omitted service name does NOT leave
the recorded name unchanged.  Non-matching pairs are appended. -/
theorem C1_service_merge_policy (store : Store) (p : DiscoverParams) (t : String)
    (meta : EngagementMetadata) (host : Host) (sp : ServiceParam)
    (pre post : List Service) (e : Service)
    (hload : loadActiveMetadata store = Except.ok meta)
    (hfound : findHost meta.hosts p.ip = some host)
    (hsvcs : p.services = some [sp])
    (hsplit : host.services = pre ++ e :: post)
    (hpre : ∀ m ∈ pre, ¬(m.port = sp.port ∧ m.proto = sp.proto))
    (hkey : e.port = sp.port ∧ e.proto = sp.proto) :
    (discoverHostS store p t).2 = Except.ok (applyDiscover host p t) ∧
    (applyDiscover host p t).services = pre ++ updateMatch (fillIncoming sp) e :: post ∧
    (updateMatch (fillIncoming sp) e).service =
      (match sp.service with
       | some s => if s = "" then "unknown" else s
       | none => "unknown") ∧
    (updateMatch (fillIncoming sp) e).version =
      (match sp.version with
       | some v => if v = "" then e.version else v
       | none => e.version) ∧
    (updateMatch (fillIncoming sp) e).notes =
      (match sp.notes with
       | some n => if n = "" then e.notes else n
       | none => e.notes) ∧
    (updateMatch (fillIncoming sp) e).port = e.port ∧
    (updateMatch (fillIncoming sp) e).proto = e.proto := by
  refine ⟨?_, ?_, updateMatch_fillIncoming_service sp e,
    updateMatch_fillIncoming_version sp e, updateMatch_fillIncoming_notes sp e, rfl, rfl⟩
  · rw [discoverHostS_found store p t meta host hload hfound]
  · rw [applyDiscover_services, hsvcs]
    show mergeServices host.services [fillIncoming sp] = _
    have : mergeServices host.services [fillIncoming sp] =
        mergeOne host.services (fillIncoming sp) := rfl
    rw [this, hsplit]
    exact mergeOne_append pre post e (fillIncoming sp)
      (by rw [fillIncoming_port, fillIncoming_proto]; exact hpre)
      (by rw [fillIncoming_port, fillIncoming_proto]; exact hkey)

theorem C1_service_merge_policy_witness :
    (applyDiscover sampleHost cexDiscoverParams "T1").services =
      [updateMatch (fillIncoming { port := 80, proto := Proto.tcp }) sampleService] :=
  (C1_service_merge_policy sampleStore cexDiscoverParams "T1" sampleMeta sampleHost
    { port := 80, proto := Proto.tcp } [] [] sampleService
    rfl rfl rfl rfl (by intro m hm; cases hm) (by constructor <;> rfl)).2.1

/-- C1 counterexample: re-discovering the sample host while omitting
the optional service fields of the matching 80/tcp entry replaces the
previously recorded service name "http" with "unknown", destroying
known service detail even though the caller omitted the field. -/
theorem C1_counterexample :
    cexDiscoverParams.services =
      some [{ port := 80, proto := Proto.tcp, service := none, version := none, notes := none }] ∧
    sampleHost.services =
      [{ port := 80, proto := Proto.tcp, service := "http", version := "1.0", notes := "n" }] ∧
    (discoverHostS sampleStore cexDiscoverParams "T1").2 =
      Except.ok (applyDiscover sampleHost cexDiscoverParams "T1") ∧
    (applyDiscover sampleHost cexDiscoverParams "T1").services =
      [{ port := 80, proto := Proto.tcp, service := "unknown", version := "1.0", notes := "n" }] ∧
    "unknown" ≠ "http" := by
  refine ⟨rfl, rfl, ?_, by decide, by decide⟩
  rw [discoverHostS_found sampleStore cexDiscoverParams "T1" sampleMeta sampleHost rfl rfl]

/-! ## CVSS validation -/

theorem cvssBad_iff (o : Option ℚ) :
    cvssBad o = true ↔ ∃ c, o = some c ∧ (c < 0 ∨ c > 10) := by
  cases o with
  | none => simp [cvssBad]
  | some c => simp [cvssBad]

/-- C7: `finding_add` and `finding_update` fail with InvalidCvss
exactly when a CVSS value is supplied and lies outside the closed
interval from 0 to 10; with an in-range or omitted CVSS they succeed
(given an active engagement whose record exists and, for update, an
existing finding id). -/
theorem C7_cvss_validation (store : Store) (meta : EngagementMetadata)
    (p : AddFindingParams) (q : UpdateFindingParams) (f0 : Finding) (t : String)
    (hload : loadActiveMetadata store = Except.ok meta)
    (hfind : findFinding meta.findings q.id = some f0) :
    ((∃ c, p.cvss = some c ∧ (c < 0 ∨ c > 10)) →
      (addFindingS store p t).2 = Except.error NyxError.invalidCvss) ∧
    ((∀ c, p.cvss = some c → 0 ≤ c ∧ c ≤ 10) →
      ∃ f, (addFindingS store p t).2 = Except.ok f) ∧
    ((∃ c, q.cvss = some c ∧ (c < 0 ∨ c > 10)) →
      (updateFindingS store q t).2 = Except.error NyxError.invalidCvss) ∧
    ((∀ c, q.cvss = some c → 0 ≤ c ∧ c ≤ 10) →
      ∃ f, (updateFindingS store q t).2 = Except.ok f) := by
  refine ⟨?_, ?_, ?_, ?_⟩
  · intro hbad
    have hb : cvssBad p.cvss = true := (cvssBad_iff p.cvss).mpr hbad
    unfold addFindingS
    simp only [hload]
    unfold addFindingCore
    simp [hb]
  · intro hok
    have hb : cvssBad p.cvss = false := by
      rcases hgood : p.cvss with _ | c
      · rfl
      · have := hok c hgood
        simp only [cvssBad, decide_eq_false_iff_not]
        push_neg
        exact ⟨this.1, this.2⟩
    unfold addFindingS
    simp only [hload]
    unfold addFindingCore
    simp [hb]
  · intro hbad
    rcases hbad with ⟨c, hc, hout⟩
    unfold updateFindingS
    simp only [hload]
    unfold updateFindingCore
    simp only [hfind, hc]
    rw [if_pos hout]
  · intro hok
    unfold updateFindingS
    simp only [hload]
    unfold updateFindingCore
    simp only [hfind]
    rcases hc : q.cvss with _ | c
    · simp
    · have hb := hok c hc
      have hnot : ¬(c < 0 ∨ c > 10) := by push_neg; exact ⟨hb.1, hb.2⟩
      simp [hnot]

theorem C7_cvss_validation_witness :
    (addFindingS sampleStore
      { host := "h", vulnerability := "v", severity := Severity.low, cvss := some (-1/10) }
      "T1").2 = Except.error NyxError.invalidCvss ∧
    (∃ f, (addFindingS sampleStore
      { host := "h", vulnerability := "v", severity := Severity.low, cvss := some 10 }
      "T1").2 = Except.ok f) ∧
    (updateFindingS sampleStore { id := "F-001", cvss := some (101/10) } "T1").2 =
      Except.error NyxError.invalidCvss ∧
    (∃ f, (updateFindingS sampleStore { id := "F-001", cvss := some 0 } "T1").2 =
      Except.ok f) := by
  refine ⟨?_, ?_, ?_, ?_⟩
  · exact (C7_cvss_validation sampleStore sampleMeta
      { host := "h", vulnerability := "v", severity := Severity.low, cvss := some (-1/10) }
      { id := "F-001", cvss := some (101/10) } sampleFinding "T1" rfl rfl).1
      ⟨-1/10, rfl, Or.inl (by norm_num)⟩
  · exact (C7_cvss_validation sampleStore sampleMeta
      { host := "h", vulnerability := "v", severity := Severity.low, cvss := some 10 }
      { id := "F-001", cvss := some (101/10) } sampleFinding "T1" rfl rfl).2.1
      (fun c hc => by
        injection hc with hc
        subst hc
        norm_num)
  · exact (C7_cvss_validation sampleStore sampleMeta
      { host := "h", vulnerability := "v", severity := Severity.low, cvss := some 10 }
      { id := "F-001", cvss := some (101/10) } sampleFinding "T1" rfl rfl).2.2.1
      ⟨101/10, rfl, Or.inr (by norm_num)⟩
  · exact (C7_cvss_validation sampleStore sampleMeta
      { host := "h", vulnerability := "v", severity := Severity.low, cvss := some 10 }
      { id := "F-001", cvss := some 0 } sampleFinding "T1" rfl rfl).2.2.2
      (fun c hc => by
        injection hc with hc
        subst hc
        norm_num)


/-! ## Closing an engagement -/

theorem appendHyphen_ne_empty (s t : String) : s ++ "-" ++ t ≠ "" := by
  intro h
  have hdata : (s ++ "-" ++ t).data = [] := by rw [h]
  rw [String.data_append, String.data_append] at hdata
  have hlen := congrArg List.length hdata
  have hm : (("-" : String).data).length = 1 := rfl
  simp only [List.length_append, List.length_nil, hm] at hlen
  omega

theorem resolveId_candidate_ne_empty (index : List IndexEntry) (date target : String) :
    resolveId index (candidateId date target) ≠ "" := by
  unfold resolveId
  split_ifs
  · exact appendHyphen_ne_empty _ _
  · exact appendHyphen_ne_empty date (slugify target)

/-- C8: after a successful `engagement_close` the record's status is
the supplied value (completed by default), the active engagement is
cleared, and every subsequent operation that requires an active
engagement fails with NoActiveEngagement — until `engagement_create`
or `engagement_resume` sets an active engagement again. -/
theorem C8_close_engagement (store : Store) (eid : String) (meta : EngagementMetadata)
    (st : Option EngStatus) (es : Option String) (t : String)
    (hact : requireActiveId store = some eid)
    (hmeta : store.metadataOf eid = some meta) :
    (closeEngagementS store st es t).2 =
      Except.ok (meta.id, st.getD EngStatus.completed) ∧
    (∃ m, (closeEngagementS store st es t).1.metadataOf eid = some m ∧
      m.status = st.getD EngStatus.completed) ∧
    (closeEngagementS store st es t).1.active = none ∧
    requireActiveId (closeEngagementS store st es t).1 = none ∧
    loadActiveMetadata (closeEngagementS store st es t).1 =
      Except.error NyxError.noActiveEngagement ∧
    (∀ p t2, addFindingS (closeEngagementS store st es t).1 p t2 =
      ((closeEngagementS store st es t).1, Except.error NyxError.noActiveEngagement)) ∧
    (∀ q t2, updateFindingS (closeEngagementS store st es t).1 q t2 =
      ((closeEngagementS store st es t).1, Except.error NyxError.noActiveEngagement)) ∧
    (∀ dp t2, discoverHostS (closeEngagementS store st es t).1 dp t2 =
      ((closeEngagementS store st es t).1, Except.error NyxError.noActiveEngagement)) ∧
    (∀ ep t2, hasPathSep ep.filename = false →
      saveEvidenceS (closeEngagementS store st es t).1 ep t2 =
        ((closeEngagementS store st es t).1, Except.error NyxError.noActiveEngagement)) ∧
    (engagementStatusS (closeEngagementS store st es t).1).2 =
      Except.error NyxError.noActiveEngagement ∧
    (closeEngagementS (closeEngagementS store st es t).1 st es t).2 =
      Except.error NyxError.noActiveEngagement ∧
    (∀ target scope roe date t2,
      requireActiveId (createEngagementS (closeEngagementS store st es t).1
          target scope roe date t2).1 =
        some (createEngagementS (closeEngagementS store st es t).1
          target scope roe date t2).2.id) ∧
    (resumeEngagementS (closeEngagementS store st es t).1 eid).1.active = some eid := by
  unfold closeEngagementS
  simp only [hact, hmeta]
  refine ⟨by trivial, ?_, by trivial, by trivial, by trivial, ?_, ?_, ?_, ?_,
    by trivial, by trivial, ?_, ?_⟩
  · exact ⟨{ meta with
      status := st.getD EngStatus.completed
      updated_at := t
      executive_summary :=
        match es with
        | some s => if s = "" then meta.executive_summary else s
        | none => meta.executive_summary }, by simp, rfl⟩
  · intro p t2
    simp [addFindingS, loadActiveMetadata, requireActiveId]
  · intro q t2
    simp [updateFindingS, loadActiveMetadata, requireActiveId]
  · intro dp t2
    simp [discoverHostS, loadActiveMetadata, requireActiveId]
  · intro ep t2 hsep
    simp [saveEvidenceS, hsep, loadActiveMetadata, requireActiveId]
  · intro target scope roe date t2
    simp only [createEngagementS, requireActiveId]
    rw [if_neg (resolveId_candidate_ne_empty _ date target)]
    rfl
  · simp [resumeEngagementS]

theorem C8_close_engagement_witness :
    (closeEngagementS sampleStore none none "T1").2 =
      Except.ok ("e1", EngStatus.completed) ∧
    requireActiveId (closeEngagementS sampleStore none none "T1").1 = none ∧
    (engagementStatusS (closeEngagementS sampleStore none none "T1").1).2 =
      Except.error NyxError.noActiveEngagement :=
  ⟨(C8_close_engagement sampleStore "e1" sampleMeta none none "T1" rfl rfl).1,
   (C8_close_engagement sampleStore "e1" sampleMeta none none "T1" rfl rfl).2.2.2.1,
   (C8_close_engagement sampleStore "e1" sampleMeta none none "T1" rfl rfl).2.2.2.2.2.2.2.2.2.1⟩

/-! ## Evidence save -/

theorem loadActiveMetadata_ok (store : Store) (meta : EngagementMetadata)
    (hact : requireActiveId store = some meta.id)
    (hmeta : store.metadataOf meta.id = some meta) :
    loadActiveMetadata store = Except.ok meta := by
  unfold loadActiveMetadata
  rw [hact]
  simp [hmeta]

theorem loadActiveMetadata_error_cases (store : Store) (e : NyxError)
    (h : loadActiveMetadata store = Except.error e) :
    e = NyxError.noActiveEngagement ∨ e = NyxError.nullMetadata := by
  cases hr : requireActiveId store with
  | none =>
    simp [loadActiveMetadata, hr] at h
    exact Or.inl h.symm
  | some i =>
    cases hm : store.metadataOf i with
    | none =>
      simp [loadActiveMetadata, hr, hm] at h
      exact Or.inr h.symm
    | some m =>
      simp [loadActiveMetadata, hr, hm] at h

theorem saveEvidenceS_ok (store : Store) (p : EvidenceParams) (t : String)
    (meta : EngagementMetadata)
    (hsep : hasPathSep p.filename = false)
    (hload : loadActiveMetadata store = Except.ok meta) :
    saveEvidenceS store p t =
      (saveMetadataAndRender
        { store with
          files := fun k =>
            if k = evidencePath meta.id p.filename then some p.content else store.files k }
        { meta with
          evidence_index :=
            upsertEvidence meta.evidence_index
              { filename := p.filename, description := jsOr p.description p.filename,
                related_finding_id := jsOrNull p.related_finding_id, created_at := t } } t,
       Except.ok
        ({ filename := p.filename, description := jsOr p.description p.filename,
           related_finding_id := jsOrNull p.related_finding_id, created_at := t },
         (store.files (evidencePath meta.id p.filename)).isSome)) := by
  unfold saveEvidenceS
  simp [hsep, hload]

theorem saveEvidenceS_parts (store : Store) (p : EvidenceParams) (t : String)
    (meta : EngagementMetadata)
    (hsep : hasPathSep p.filename = false)
    (hact : requireActiveId store = some meta.id)
    (hmeta : store.metadataOf meta.id = some meta) :
    (saveEvidenceS store p t).2 =
      Except.ok
        ({ filename := p.filename, description := jsOr p.description p.filename,
           related_finding_id := jsOrNull p.related_finding_id, created_at := t },
         (store.files (evidencePath meta.id p.filename)).isSome) ∧
    (saveEvidenceS store p t).1.active = store.active ∧
    (saveEvidenceS store p t).1.files =
      (fun k => if k = evidencePath meta.id p.filename then some p.content else store.files k) ∧
    (saveEvidenceS store p t).1.metadataOf meta.id =
      some { meta with
             evidence_index :=
               upsertEvidence meta.evidence_index
                 { filename := p.filename, description := jsOr p.description p.filename,
                   related_finding_id := jsOrNull p.related_finding_id, created_at := t },
             updated_at := t } := by
  rw [saveEvidenceS_ok store p t meta hsep (loadActiveMetadata_ok store meta hact hmeta)]
  refine ⟨rfl, rfl, rfl, ?_⟩
  simp [saveMetadataAndRender]

theorem countFilename_upsert (l : List EvidenceEntry) (e : EvidenceEntry) :
    countFilename (upsertEvidence l e) e.filename =
      if countFilename l e.filename = 0 then 1 else countFilename l e.filename := by
  induction l with
  | nil => simp [upsertEvidence, countFilename]
  | cons x rest ih =>
    by_cases h : x.filename = e.filename
    · rw [show upsertEvidence (x :: rest) e = e :: rest from by
        rw [upsertEvidence]; rw [if_pos h]]
      have hxcount : countFilename (x :: rest) e.filename =
          1 + countFilename rest e.filename := by
        simp [countFilename, h, Nat.add_comm]
      have hecount : countFilename (e :: rest) e.filename =
          1 + countFilename rest e.filename := by
        simp [countFilename, Nat.add_comm]
      rw [hecount, hxcount, if_neg (by omega)]
    · rw [show upsertEvidence (x :: rest) e = x :: upsertEvidence rest e from by
        rw [upsertEvidence]; rw [if_neg h]]
      have h1 : countFilename (x :: upsertEvidence rest e) e.filename =
          countFilename (upsertEvidence rest e) e.filename := by
        simp [countFilename, h]
      have h2 : countFilename (x :: rest) e.filename =
          countFilename rest e.filename := by
        simp [countFilename, h]
      rw [h1, h2, ih]

theorem countFilename_upsert_of_eq (l : List EvidenceEntry) (e : EvidenceEntry) (fn : String)
    (h : e.filename = fn) :
    countFilename (upsertEvidence l e) fn =
      if countFilename l fn = 0 then 1 else countFilename l fn := by
  subst h
  exact countFilename_upsert l e

/-- C9: `evidence_save` fails with InvalidFilename exactly when the
filename contains a path separator; otherwise the first save of a
filename reports overwritten = false, a second save of the same
filename reports overwritten = true, the stored content after the
second save is the newly supplied content, and the evidence index
holds exactly one entry for that filename. -/
theorem C9_evidence_save (store : Store) (meta : EngagementMetadata)
    (p1 p2 : EvidenceParams) (t1 t2 : String)
    (hact : requireActiveId store = some meta.id)
    (hmeta : store.metadataOf meta.id = some meta)
    (hfn : p2.filename = p1.filename)
    (hsep : hasPathSep p1.filename = false)
    (hfile : store.files (evidencePath meta.id p1.filename) = none)
    (hidx : countFilename meta.evidence_index p1.filename ≤ 1) :
    (∀ store3 p3 t3,
      ((saveEvidenceS store3 p3 t3).2 = Except.error NyxError.invalidFilename ↔
        hasPathSep p3.filename = true)) ∧
    (∃ e1, (saveEvidenceS store p1 t1).2 = Except.ok (e1, false)) ∧
    (∃ e2, (saveEvidenceS (saveEvidenceS store p1 t1).1 p2 t2).2 = Except.ok (e2, true)) ∧
    (saveEvidenceS (saveEvidenceS store p1 t1).1 p2 t2).1.files
      (evidencePath meta.id p1.filename) = some p2.content ∧
    (∃ m2, (saveEvidenceS (saveEvidenceS store p1 t1).1 p2 t2).1.metadataOf meta.id =
        some m2 ∧
      countFilename m2.evidence_index p1.filename = 1) := by
  have hgen : ∀ store3 p3 t3,
      ((saveEvidenceS store3 p3 t3).2 = Except.error NyxError.invalidFilename ↔
        hasPathSep p3.filename = true) := by
    intro store3 p3 t3
    constructor
    · intro h
      by_cases hb : hasPathSep p3.filename = true
      · exact hb
      · exfalso
        rw [Bool.not_eq_true] at hb
        unfold saveEvidenceS at h
        rw [if_neg (by simp [hb])] at h
        cases hl : loadActiveMetadata store3 with
        | error e =>
          simp only [hl] at h
          rcases loadActiveMetadata_error_cases store3 e hl with he | he <;>
            subst he <;> simp at h
        | ok m =>
          simp only [hl] at h
          simp at h
    · intro h
      unfold saveEvidenceS
      rw [if_pos (by simp [h])]
  have parts1 := saveEvidenceS_parts store p1 t1 meta hsep hact hmeta
  have hsep2 : hasPathSep p2.filename = false := by rw [hfn]; exact hsep
  have hactS1 : requireActiveId (saveEvidenceS store p1 t1).1 = some meta.id := by
    unfold requireActiveId at hact ⊢
    rw [parts1.2.1]
    exact hact
  have parts2 := saveEvidenceS_parts (saveEvidenceS store p1 t1).1 p2 t2
    { meta with
      evidence_index :=
        upsertEvidence meta.evidence_index
          { filename := p1.filename, description := jsOr p1.description p1.filename,
            related_finding_id := jsOrNull p1.related_finding_id, created_at := t1 },
      updated_at := t1 }
    hsep2 hactS1 parts1.2.2.2
  have parts2b1 : (saveEvidenceS (saveEvidenceS store p1 t1).1 p2 t2).2 =
      Except.ok
        ({ filename := p2.filename, description := jsOr p2.description p2.filename,
           related_finding_id := jsOrNull p2.related_finding_id, created_at := t2 },
         ((saveEvidenceS store p1 t1).1.files
           (evidencePath meta.id p2.filename)).isSome) := parts2.1
  have parts2b3 : (saveEvidenceS (saveEvidenceS store p1 t1).1 p2 t2).1.files =
      (fun k => if k = evidencePath meta.id p2.filename then some p2.content
        else (saveEvidenceS store p1 t1).1.files k) := parts2.2.2.1
  have parts2b4 : (saveEvidenceS (saveEvidenceS store p1 t1).1 p2 t2).1.metadataOf meta.id =
      some { meta with
             evidence_index :=
               upsertEvidence
                 (upsertEvidence meta.evidence_index
                   { filename := p1.filename, description := jsOr p1.description p1.filename,
                     related_finding_id := jsOrNull p1.related_finding_id, created_at := t1 })
                 { filename := p2.filename, description := jsOr p2.description p2.filename,
                   related_finding_id := jsOrNull p2.related_finding_id, created_at := t2 },
             updated_at := t2 } := parts2.2.2.2
  have hS1file : (saveEvidenceS store p1 t1).1.files
      (evidencePath meta.id p1.filename) = some p1.content := by
    rw [parts1.2.2.1]
    simp
  refine ⟨hgen, ?_, ?_, ?_, ?_⟩
  · exact ⟨_, by rw [parts1.1, hfile]; rfl⟩
  · exact ⟨_, by rw [parts2b1, hfn, hS1file]; rfl⟩
  · rw [parts2b3, hfn]
    simp
  · refine ⟨_, parts2b4, ?_⟩
    have hc1 : countFilename
        (upsertEvidence meta.evidence_index
          { filename := p1.filename, description := jsOr p1.description p1.filename,
            related_finding_id := jsOrNull p1.related_finding_id, created_at := t1 })
        p1.filename = 1 := by
      have h1 : countFilename
          (upsertEvidence meta.evidence_index
            { filename := p1.filename, description := jsOr p1.description p1.filename,
              related_finding_id := jsOrNull p1.related_finding_id, created_at := t1 })
          p1.filename =
          if countFilename meta.evidence_index p1.filename = 0 then 1
          else countFilename meta.evidence_index p1.filename :=
        countFilename_upsert meta.evidence_index _
      rw [h1]
      split_ifs <;> omega
    have h2 : countFilename
        (upsertEvidence
          (upsertEvidence meta.evidence_index
            { filename := p1.filename, description := jsOr p1.description p1.filename,
              related_finding_id := jsOrNull p1.related_finding_id, created_at := t1 })
          { filename := p2.filename, description := jsOr p2.description p2.filename,
            related_finding_id := jsOrNull p2.related_finding_id, created_at := t2 })
        p1.filename =
        if countFilename
            (upsertEvidence meta.evidence_index
              { filename := p1.filename, description := jsOr p1.description p1.filename,
                related_finding_id := jsOrNull p1.related_finding_id, created_at := t1 })
            p1.filename = 0 then 1
        else countFilename
            (upsertEvidence meta.evidence_index
              { filename := p1.filename, description := jsOr p1.description p1.filename,
                related_finding_id := jsOrNull p1.related_finding_id, created_at := t1 })
            p1.filename :=
      countFilename_upsert_of_eq _ _ _ hfn
    show countFilename
        (upsertEvidence
          (upsertEvidence meta.evidence_index
            { filename := p1.filename, description := jsOr p1.description p1.filename,
              related_finding_id := jsOrNull p1.related_finding_id, created_at := t1 })
          { filename := p2.filename, description := jsOr p2.description p2.filename,
            related_finding_id := jsOrNull p2.related_finding_id, created_at := t2 })
        p1.filename = 1
    rw [h2, hc1]
    simp

theorem C9_evidence_save_witness :
    (∃ e1, (saveEvidenceS sampleStore { filename := "a.txt", content := "v1" } "T1").2 =
      Except.ok (e1, false)) ∧
    (∃ e2, (saveEvidenceS
        (saveEvidenceS sampleStore { filename := "a.txt", content := "v1" } "T1").1
        { filename := "a.txt", content := "v2" } "T2").2 = Except.ok (e2, true)) ∧
    (saveEvidenceS
        (saveEvidenceS sampleStore { filename := "a.txt", content := "v1" } "T1").1
        { filename := "a.txt", content := "v2" } "T2").1.files
      (evidencePath sampleMeta.id "a.txt") = some "v2" :=
  ⟨(C9_evidence_save sampleStore sampleMeta
      { filename := "a.txt", content := "v1" } { filename := "a.txt", content := "v2" }
      "T1" "T2" rfl rfl rfl (by decide) rfl (by decide)).2.1,
   (C9_evidence_save sampleStore sampleMeta
      { filename := "a.txt", content := "v1" } { filename := "a.txt", content := "v2" }
      "T1" "T2" rfl rfl rfl (by decide) rfl (by decide)).2.2.1,
   (C9_evidence_save sampleStore sampleMeta
      { filename := "a.txt", content := "v1" } { filename := "a.txt", content := "v2" }
      "T1" "T2" rfl rfl rfl (by decide) rfl (by decide)).2.2.2.1⟩

/-! ## Decimal rendering and parsing -/

theorem charVal_digitChar {d : Nat} (h : d < 10) : charVal (digitChar d) = d := by
  interval_cases d <;> decide

theorem isDigit_digitChar {d : Nat} (h : d < 10) : (digitChar d).isDigit = true := by
  interval_cases d <;> decide

theorem digitsVal_foldl (l : List Char) (acc : Nat) :
    l.foldl (fun a c => a * 10 + charVal c) acc = acc * 10 ^ l.length + digitsVal l := by
  induction l generalizing acc with
  | nil => simp [digitsVal]
  | cons c rest ih =>
    simp only [List.foldl_cons, List.length_cons]
    rw [ih (acc * 10 + charVal c)]
    have hd : digitsVal (c :: rest) = charVal c * 10 ^ rest.length + digitsVal rest := by
      show List.foldl _ (0 * 10 + charVal c) rest = _
      rw [ih (0 * 10 + charVal c)]
      ring_nf
    rw [hd]
    ring

theorem digitsVal_snoc (l : List Char) (c : Char) :
    digitsVal (l ++ [c]) = digitsVal l * 10 + charVal c := by
  unfold digitsVal
  rw [List.foldl_append]
  rfl

theorem digitsVal_natDigits (n : Nat) : digitsVal (natDigits n) = n := by
  induction n using Nat.strong_induction_on with
  | _ n ih =>
    unfold natDigits
    by_cases h : n < 10
    · rw [dif_pos h]
      show 0 * 10 + charVal (digitChar n) = n
      rw [charVal_digitChar h]
      omega
    · rw [dif_neg h]
      rw [digitsVal_snoc, ih (n / 10) (Nat.div_lt_self (by omega) (by omega)),
        charVal_digitChar (Nat.mod_lt n (by omega))]
      omega

theorem natDigits_all_digits (n : Nat) : ∀ c ∈ natDigits n, c.isDigit = true := by
  induction n using Nat.strong_induction_on with
  | _ n ih =>
    unfold natDigits
    by_cases h : n < 10
    · rw [dif_pos h]
      intro c hc
      rw [List.mem_singleton] at hc
      subst hc
      exact isDigit_digitChar h
    · rw [dif_neg h]
      intro c hc
      rcases List.mem_append.mp hc with hc | hc
      · exact ih (n / 10) (Nat.div_lt_self (by omega) (by omega)) c hc
      · rw [List.mem_singleton] at hc
        subst hc
        exact isDigit_digitChar (Nat.mod_lt n (by omega))

theorem natDigits_ne_nil (n : Nat) : natDigits n ≠ [] := by
  unfold natDigits
  by_cases h : n < 10
  · rw [dif_pos h]; simp
  · rw [dif_neg h]; simp

theorem digitsVal_replicate_zero (k : Nat) (l : List Char) :
    digitsVal (List.replicate k '0' ++ l) = digitsVal l := by
  induction k with
  | zero => simp
  | succ k ih =>
    rw [List.replicate_succ, List.cons_append]
    show List.foldl _ (0 * 10 + charVal '0') (List.replicate k '0' ++ l) = _
    have hz : 0 * 10 + charVal '0' = 0 := by decide
    rw [hz]
    exact ih

theorem toNat_of_isDigit (c : Char) (h : c.isDigit = true) :
    48 ≤ c.toNat ∧ c.toNat ≤ 57 := by
  unfold Char.isDigit at h
  simp only [Bool.and_eq_true, decide_eq_true_eq] at h
  exact h

theorem isSpaceChar_eq_false_of_digit (c : Char) (h : c.isDigit = true) :
    isSpaceChar c = false := by
  have hb := toNat_of_isDigit c h
  unfold isSpaceChar
  simp only [decide_eq_false_iff_not]
  intro hc
  rcases hc with hc | hc | hc | hc <;> subst hc <;> revert hb <;> decide

theorem ne_sign_of_digit (c : Char) (h : c.isDigit = true) : c ≠ '-' ∧ c ≠ '+' := by
  have hb := toNat_of_isDigit c h
  constructor <;> intro hc <;> subst hc <;> revert hb <;> decide

theorem takeWhile_of_all {p : Char → Bool} (l : List Char) (h : ∀ c ∈ l, p c = true) :
    l.takeWhile p = l := by
  induction l with
  | nil => rfl
  | cons c rest ih =>
    rw [List.takeWhile_cons, h c (List.mem_cons_self _ _)]
    simp only [if_true]
    rw [ih (fun d hd => h d (List.mem_cons_of_mem _ hd))]

theorem jsParseInt_all_digits (l : List Char) (hne : l ≠ [])
    (hd : ∀ c ∈ l, c.isDigit = true) :
    jsParseInt (String.mk l) = some (digitsVal l : Int) := by
  obtain ⟨c, rest, rfl⟩ := List.exists_cons_of_ne_nil hne
  have hcd := hd c (List.mem_cons_self _ _)
  unfold jsParseInt
  show (match (c :: rest).dropWhile isSpaceChar with
    | [] => none
    | c :: rest =>
      if c = '-' then
        let ds := rest.takeWhile Char.isDigit
        if ds = [] then none else some (-(digitsVal ds : Int))
      else if c = '+' then
        let ds := rest.takeWhile Char.isDigit
        if ds = [] then none else some (digitsVal ds : Int)
      else
        let ds := (c :: rest).takeWhile Char.isDigit
        if ds = [] then none else some (digitsVal ds : Int)) = _
  rw [List.dropWhile_cons, isSpaceChar_eq_false_of_digit c hcd]
  simp only [Bool.false_eq_true, if_false]
  rw [if_neg (ne_sign_of_digit c hcd).1, if_neg (ne_sign_of_digit c hcd).2]
  rw [takeWhile_of_all _ hd]
  rw [if_neg hne]

theorem jsNatStr_inj (a b : Nat) (h : jsNatStr a = jsNatStr b) : a = b := by
  unfold jsNatStr at h
  injection h with h
  have := congrArg digitsVal h
  rwa [digitsVal_natDigits, digitsVal_natDigits] at this

/-! ## Finding id generation -/

theorem replaceFirstList_F (l : List Char) :
    replaceFirstList ['F', '-'] [] ('F' :: '-' :: l) = l := by
  rw [replaceFirstList]
  rw [if_pos (by simp [List.isPrefixOf])]
  simp

theorem replaceFirst_F_strip (s : String) :
    replaceFirst ("F-" ++ s) "F-" "" = s := by
  unfold replaceFirst
  have hdata : ("F-" ++ s).data = 'F' :: '-' :: s.data := by
    rw [String.data_append]
    rfl
  rw [hdata]
  show String.mk (replaceFirstList ['F', '-'] [] ('F' :: '-' :: s.data)) = s
  rw [replaceFirstList_F]

theorem padStart3_digits (n : Nat) :
    (padStart3 (jsNatStr n)).data ≠ [] ∧
    (∀ c ∈ (padStart3 (jsNatStr n)).data, c.isDigit = true) ∧
    digitsVal (padStart3 (jsNatStr n)).data = n := by
  unfold padStart3 jsNatStr
  by_cases h : (String.mk (natDigits n)).data.length ≥ 3
  · rw [if_pos h]
    exact ⟨natDigits_ne_nil n, natDigits_all_digits n, digitsVal_natDigits n⟩
  · rw [if_neg h]
    refine ⟨by simp [natDigits_ne_nil n], ?_, ?_⟩
    · intro c hc
      rcases List.mem_append.mp hc with hc | hc
      · rw [List.eq_of_mem_replicate hc]
        decide
      · exact natDigits_all_digits n c hc
    · show digitsVal (List.replicate _ '0' ++ natDigits n) = n
      rw [digitsVal_replicate_zero, digitsVal_natDigits]

theorem findingSuffix_findingIdString (n : Nat) :
    findingSuffix (findingIdString n) = some (n : Int) := by
  unfold findingSuffix findingIdString
  rw [replaceFirst_F_strip]
  obtain ⟨hne, hall, hval⟩ := padStart3_digits n
  have : padStart3 (jsNatStr n) = String.mk (padStart3 (jsNatStr n)).data := rfl
  rw [this, jsParseInt_all_digits _ hne hall, hval]

theorem maxFindingSuffix_eq (fs : List Finding) :
    maxFindingSuffix fs = (idsOf fs).foldl
      (fun mx i => match findingSuffix i with
        | some n => if n > mx then n else mx
        | none => mx) 0 := by
  unfold maxFindingSuffix idsOf
  rw [List.foldl_map]

theorem genFindingIds_succ (k : Nat) :
    genFindingIds (k + 1) = genFindingIds k ++ [findingIdString (k + 1)] := by
  unfold genFindingIds
  rw [List.range_succ, List.map_append]
  rfl

theorem idsMax_genIds (k : Nat) :
    (genFindingIds k).foldl
      (fun mx i => match findingSuffix i with
        | some n => if n > mx then n else mx
        | none => mx) 0 = (k : Int) := by
  induction k with
  | zero => rfl
  | succ k ih =>
    rw [genFindingIds_succ, List.foldl_append, ih]
    show (match findingSuffix (findingIdString (k + 1)) with
      | some n => if n > (k : Int) then n else (k : Int)
      | none => (k : Int)) = ((k + 1 : Nat) : Int)
    rw [findingSuffix_findingIdString]
    show (if ((k + 1 : Nat) : Int) > (k : Int) then ((k + 1 : Nat) : Int) else (k : Int)) = _
    rw [if_pos (by exact_mod_cast Nat.lt_succ_self k)]

theorem nextFindingId_eq (fs : List Finding) (k : Nat)
    (hids : idsOf fs = genFindingIds k) :
    nextFindingId fs = findingIdString (k + 1) := by
  unfold nextFindingId findingIdString
  rw [maxFindingSuffix_eq, hids, idsMax_genIds]
  have hcast : ((k : Int) + 1) = ((k + 1 : Nat) : Int) := by push_cast; ring
  rw [hcast]
  rfl

theorem findFinding_id (fs : List Finding) (i : String) (f : Finding)
    (h : findFinding fs i = some f) : f.id = i := by
  induction fs with
  | nil => cases h
  | cons x rest ih =>
    unfold findFinding at h
    by_cases hx : x.id = i
    · rw [if_pos hx] at h
      injection h with h
      rw [← h]
      exact hx
    · rw [if_neg hx] at h
      exact ih h

theorem idsOf_setFinding (fs : List Finding) (i : String) (f : Finding)
    (hf : f.id = i) : idsOf (setFinding fs i f) = idsOf fs := by
  induction fs with
  | nil => rfl
  | cons x rest ih =>
    unfold setFinding
    by_cases hx : x.id = i
    · rw [if_pos hx]
      unfold idsOf
      simp only [List.map_cons]
      rw [hf, hx]
    · rw [if_neg hx]
      unfold idsOf at ih ⊢
      simp only [List.map_cons]
      rw [ih]

theorem updateFindingRest_id (q : UpdateFindingParams) (t : String) (f : Finding) :
    (updateFindingRest q t f).id = f.id := by
  unfold updateFindingRest
  cases q.status <;> cases q.evidence_file <;> cases q.notes <;>
    simp only [] <;> split_ifs <;> rfl

theorem updateFindingCore_ids (meta : EngagementMetadata) (q : UpdateFindingParams)
    (t : String) (meta1 : EngagementMetadata) (f : Finding)
    (h : updateFindingCore meta q t = Except.ok (meta1, f)) :
    idsOf meta1.findings = idsOf meta.findings := by
  unfold updateFindingCore at h
  cases hf : findFinding meta.findings q.id with
  | none => rw [hf] at h; cases h
  | some f0 =>
    have hid0 : f0.id = q.id := findFinding_id meta.findings q.id f0 hf
    simp only [hf] at h
    cases hc : q.cvss with
    | none =>
      simp only [hc] at h
      injection h with h
      have hm := congrArg Prod.fst h
      simp only at hm
      rw [← hm]
      refine idsOf_setFinding _ _ _ ?_
      rw [updateFindingRest_id]
      cases hs : q.severity <;> simp only [hs] <;> exact hid0
    | some c =>
      simp only [hc] at h
      by_cases hout : c < 0 ∨ c > 10
      · rw [if_pos hout] at h; cases h
      · rw [if_neg hout] at h
        injection h with h
        have hm := congrArg Prod.fst h
        simp only at hm
        rw [← hm]
        refine idsOf_setFinding _ _ _ ?_
        rw [updateFindingRest_id]
        cases hs : q.severity <;> simp only [hs] <;> exact hid0

theorem runFindingOps_inv (t : String) (ops : List FOp) :
    ∀ (meta : EngagementMetadata) (k : Nat),
      idsOf meta.findings = genFindingIds k →
      idsOf (runFindingOps t meta ops).1.findings =
        genFindingIds (k + ops.countP isValidAdd) ∧
      (runFindingOps t meta ops).2.filterMap (fun r => r) =
        (List.range (ops.countP isValidAdd)).map (fun i => findingIdString (k + 1 + i)) := by
  induction ops with
  | nil =>
    intro meta k h
    constructor
    · simpa [runFindingOps] using h
    · simp [runFindingOps]
  | cons op rest ih =>
    intro meta k h
    cases op with
    | add p =>
      by_cases hb : cvssBad p.cvss = true
      · have hstep : stepFindingOp t meta (FOp.add p) = (meta, none) := by
          unfold stepFindingOp addFindingCore
          simp [hb]
        have hcount : (FOp.add p :: rest).countP isValidAdd = rest.countP isValidAdd := by
          rw [List.countP_cons]
          simp [isValidAdd, hb]
        show idsOf (runFindingOps t (stepFindingOp t meta (FOp.add p)).1 rest).1.findings = _ ∧
          ((stepFindingOp t meta (FOp.add p)).2 ::
            (runFindingOps t (stepFindingOp t meta (FOp.add p)).1 rest).2).filterMap
              (fun r => r) = _
        rw [hstep, hcount]
        obtain ⟨h1, h2⟩ := ih meta k h
        exact ⟨h1, by simpa using h2⟩
      · rw [Bool.not_eq_true] at hb
        have hnext : nextFindingId meta.findings = findingIdString (k + 1) :=
          nextFindingId_eq meta.findings k h
        have hstep : ∃ f : Finding,
            stepFindingOp t meta (FOp.add p) =
              ({ meta with findings := meta.findings ++ [f], updated_at := t },
               some f.id) ∧ f.id = findingIdString (k + 1) := by
          unfold stepFindingOp addFindingCore
          simp only [hb, Bool.false_eq_true, if_false]
          exact ⟨_, rfl, hnext⟩
        obtain ⟨f, hstep, hfid⟩ := hstep
        have hids1 : idsOf
            ({ meta with findings := meta.findings ++ [f], updated_at := t }
              : EngagementMetadata).findings = genFindingIds (k + 1) := by
          show idsOf (meta.findings ++ [f]) = _
          unfold idsOf at h ⊢
          rw [List.map_append, h, genFindingIds_succ]
          unfold genFindingIds
          simp [hfid]
        have hcount : (FOp.add p :: rest).countP isValidAdd =
            rest.countP isValidAdd + 1 := by
          rw [List.countP_cons]
          simp [isValidAdd, hb]
        show idsOf (runFindingOps t (stepFindingOp t meta (FOp.add p)).1 rest).1.findings = _ ∧
          ((stepFindingOp t meta (FOp.add p)).2 ::
            (runFindingOps t (stepFindingOp t meta (FOp.add p)).1 rest).2).filterMap
              (fun r => r) = _
        rw [hstep, hcount]
        obtain ⟨h1, h2⟩ := ih _ (k + 1) hids1
        constructor
        · rw [h1]
          have harg : k + 1 + rest.countP isValidAdd =
              k + (rest.countP isValidAdd + 1) := by omega
          rw [harg]
        · show f.id :: (runFindingOps t _ rest).2.filterMap (fun r => r) = _
          rw [h2, hfid, List.range_succ_eq_map, List.map_cons, List.map_map]
          have hhead : findingIdString (k + 1) = findingIdString (k + 1 + 0) :=
            congrArg findingIdString (by omega)
          rw [hhead]
          congr 1
          apply List.map_congr_left
          intro a _
          simp only [Function.comp]
          exact congrArg findingIdString (by omega)
    | update q =>
      have hcount : (FOp.update q :: rest).countP isValidAdd = rest.countP isValidAdd := by
        rw [List.countP_cons]
        simp [isValidAdd]
      have hids1 : idsOf (stepFindingOp t meta (FOp.update q)).1.findings =
          genFindingIds k := by
        unfold stepFindingOp
        cases hcore : updateFindingCore meta q t with
        | error e =>
          simp only [hcore]
          exact h
        | ok pr =>
          simp only [hcore]
          show idsOf pr.1.findings = _
          rw [updateFindingCore_ids meta q t pr.1 pr.2 hcore]
          exact h
      have hnone : (stepFindingOp t meta (FOp.update q)).2 = none := by
        unfold stepFindingOp
        cases hcore : updateFindingCore meta q t with
        | error e => simp only [hcore]
        | ok pr => simp only [hcore]
      show idsOf (runFindingOps t (stepFindingOp t meta (FOp.update q)).1 rest).1.findings = _ ∧
        ((stepFindingOp t meta (FOp.update q)).2 ::
          (runFindingOps t (stepFindingOp t meta (FOp.update q)).1 rest).2).filterMap
            (fun r => r) = _
      rw [hcount, hnone]
      obtain ⟨h1, h2⟩ := ih _ k hids1
      exact ⟨h1, by simpa using h2⟩

/-- C3: starting from a record with no findings, a sequence of
findings operations assigns to its successful adds exactly the ids
F-001, F-002, and so on in call order (zero-padded to width three and
simply not re-padded past 999); interleaved `finding_update` calls do
not affect id assignment, and in general the next id is the maximum
existing numeric suffix plus one, defaulting to 1 when no findings
exist. -/
theorem C3_sequential_finding_ids (meta0 : EngagementMetadata) (t : String) (ops : List FOp)
    (h0 : meta0.findings = []) :
    (runFindingOps t meta0 ops).2.filterMap (fun r => r) =
      (List.range (ops.countP isValidAdd)).map (fun i => findingIdString (1 + i)) ∧
    idsOf (runFindingOps t meta0 ops).1.findings = genFindingIds (ops.countP isValidAdd) ∧
    (∀ fs : List Finding,
      nextFindingId fs = "F-" ++ padStart3 (jsIntStr (maxFindingSuffix fs + 1))) ∧
    nextFindingId [] = "F-001" ∧
    findingIdString 1 = "F-001" ∧
    findingIdString 12 = "F-012" ∧
    findingIdString 999 = "F-999" ∧
    findingIdString 1000 = "F-1000" := by
  have hids0 : idsOf meta0.findings = genFindingIds 0 := by
    rw [h0]
    rfl
  obtain ⟨h1, h2⟩ := runFindingOps_inv t ops meta0 0 hids0
  rw [Nat.zero_add] at h1
  refine ⟨h2, h1, fun fs => rfl, ?_, ?_, ?_, ?_, ?_⟩
  · have hn : natDigits 1 = ['1'] := by unfold natDigits; decide
    unfold nextFindingId maxFindingSuffix jsIntStr
    show "F-" ++ padStart3 (jsNatStr 1) = _
    unfold jsNatStr
    rw [hn]
    decide
  · have hn : natDigits 1 = ['1'] := by unfold natDigits; decide
    unfold findingIdString jsNatStr
    rw [hn]
    decide
  · have hn : natDigits 12 = ['1', '2'] := by
      rw [natDigits, natDigits]
      decide
    unfold findingIdString jsNatStr
    rw [hn]
    decide
  · have hn : natDigits 999 = ['9', '9', '9'] := by
      rw [natDigits, natDigits, natDigits]
      decide
    unfold findingIdString jsNatStr
    rw [hn]
    decide
  · have hn : natDigits 1000 = ['1', '0', '0', '0'] := by
      rw [natDigits, natDigits, natDigits, natDigits]
      decide
    unfold findingIdString jsNatStr
    rw [hn]
    decide

theorem C3_sequential_finding_ids_witness :
    (runFindingOps "T1" (makeEmptyMetadata "e" "tgt" [] "" "T0")
        [FOp.add { host := "h1", vulnerability := "v1", severity := Severity.critical },
         FOp.update { id := "F-001", notes := some "x" },
         FOp.add { host := "h2", vulnerability := "v2", severity := Severity.low }]).2.filterMap
      (fun r => r) =
      (List.range
        ([FOp.add { host := "h1", vulnerability := "v1", severity := Severity.critical },
          FOp.update { id := "F-001", notes := some "x" },
          FOp.add { host := "h2", vulnerability := "v2", severity := Severity.low }].countP
          isValidAdd)).map (fun i => findingIdString (1 + i)) :=
  (C3_sequential_finding_ids (makeEmptyMetadata "e" "tgt" [] "" "T0") "T1"
    [FOp.add { host := "h1", vulnerability := "v1", severity := Severity.critical },
     FOp.update { id := "F-001", notes := some "x" },
     FOp.add { host := "h2", vulnerability := "v2", severity := Severity.low }] rfl).1

/-! ## Engagement id collision resolution -/

theorem idTaken_iff (index : List IndexEntry) (s : String) :
    idTaken index s = true ↔ s ∈ index.map (fun e => e.id) := by
  unfold idTaken
  rw [List.any_eq_true]
  constructor
  · rintro ⟨e, he, heq⟩
    rw [List.mem_map]
    exact ⟨e, he, beq_iff_eq.mp heq⟩
  · rw [List.mem_map]
    rintro ⟨e, he, heq⟩
    exact ⟨e, he, beq_iff_eq.mpr heq⟩

theorem nodup_length_le {α : Type} [DecidableEq α] (l1 l2 : List α)
    (h1 : l1.Nodup) (hs : l1 ⊆ l2) : l1.length ≤ l2.length := by
  calc l1.length = l1.toFinset.card := (List.toFinset_card_of_nodup h1).symm
    _ ≤ l2.toFinset.card := Finset.card_le_card (by
        intro x hx
        simp only [List.mem_toFinset] at hx ⊢
        exact hs hx)
    _ ≤ l2.length := l2.toFinset_card_le

theorem suffix_data (cand : String) (a : Nat) :
    (cand ++ "-" ++ jsNatStr a).data = (cand.data ++ ['-']) ++ natDigits a := by
  rw [String.data_append, String.data_append]
  rfl

theorem suffix_str_inj (cand : String) (a b : Nat)
    (h : cand ++ "-" ++ jsNatStr a = cand ++ "-" ++ jsNatStr b) : a = b := by
  have hd := congrArg String.data h
  rw [suffix_data, suffix_data] at hd
  have hdig := List.append_cancel_left hd
  have := congrArg digitsVal hdig
  rwa [digitsVal_natDigits, digitsVal_natDigits] at this

theorem firstFreeSuffixAux_spec (index : List IndexEntry) (cand : String) :
    ∀ (fuel k : Nat),
      (∃ j, j < fuel ∧ idTaken index (cand ++ "-" ++ jsNatStr (k + j)) = false) →
      k ≤ firstFreeSuffixAux index cand fuel k ∧
      idTaken index (cand ++ "-" ++ jsNatStr (firstFreeSuffixAux index cand fuel k)) = false ∧
      ∀ j, k ≤ j → j < firstFreeSuffixAux index cand fuel k →
        idTaken index (cand ++ "-" ++ jsNatStr j) = true := by
  intro fuel
  induction fuel with
  | zero =>
    rintro k ⟨j, hj, -⟩
    omega
  | succ fuel ih =>
    rintro k ⟨j, hj, hfree⟩
    unfold firstFreeSuffixAux
    by_cases hk : idTaken index (cand ++ "-" ++ jsNatStr k) = true
    · rw [if_pos hk]
      have hj0 : j ≠ 0 := by
        intro h0
        subst h0
        simp only [Nat.add_zero] at hfree
        rw [hfree] at hk
        cases hk
      obtain ⟨hle, hfree2, hmin⟩ := ih (k + 1)
        ⟨j - 1, by omega, by
          have harg : k + 1 + (j - 1) = k + j := by omega
          rw [harg]
          exact hfree⟩
      refine ⟨by omega, hfree2, ?_⟩
      intro j2 hj2k hj2lt
      by_cases hj2 : j2 = k
      · subst hj2
        exact hk
      · exact hmin j2 (by omega) hj2lt
    · rw [if_neg hk]
      rw [Bool.not_eq_true] at hk
      exact ⟨Nat.le_refl k, hk,
        fun j2 h1 h2 => absurd (Nat.lt_of_le_of_lt h1 h2) (Nat.lt_irrefl k)⟩

theorem exists_free_suffix (index : List IndexEntry) (cand : String) (k : Nat) :
    ∃ j, j < index.length + 1 ∧
      idTaken index (cand ++ "-" ++ jsNatStr (k + j)) = false := by
  by_contra hno
  push_neg at hno
  have hall : ∀ j, j < index.length + 1 →
      (cand ++ "-" ++ jsNatStr (k + j)) ∈ index.map (fun e => e.id) := by
    intro j hj
    have hne := hno j hj
    rw [← idTaken_iff]
    cases hb : idTaken index (cand ++ "-" ++ jsNatStr (k + j)) with
    | false => exact absurd hb hne
    | true => rfl
  have hinj : Function.Injective (fun j : Nat => cand ++ "-" ++ jsNatStr (k + j)) := by
    intro a b hab
    have := suffix_str_inj cand (k + a) (k + b) hab
    omega
  have hnd : ((List.range (index.length + 1)).map
      (fun j => cand ++ "-" ++ jsNatStr (k + j))).Nodup :=
    List.Nodup.map hinj (List.nodup_range _)
  have hsub : ((List.range (index.length + 1)).map
      (fun j => cand ++ "-" ++ jsNatStr (k + j))) ⊆ index.map (fun e => e.id) := by
    intro x hx
    rw [List.mem_map] at hx
    obtain ⟨j, hjr, rfl⟩ := hx
    exact hall j (List.mem_range.mp hjr)
  have hlen := nodup_length_le _ _ hnd hsub
  simp only [List.length_map, List.length_range] at hlen
  omega

theorem resolveId_spec (index : List IndexEntry) (cand : String) :
    idTaken index (resolveId index cand) = false ∧
    (idTaken index cand = false → resolveId index cand = cand) ∧
    (idTaken index cand = true →
      ∃ k, 2 ≤ k ∧ resolveId index cand = cand ++ "-" ++ jsNatStr k ∧
        idTaken index (cand ++ "-" ++ jsNatStr k) = false ∧
        ∀ j, 2 ≤ j → j < k → idTaken index (cand ++ "-" ++ jsNatStr j) = true) := by
  unfold resolveId
  by_cases hc : idTaken index cand = true
  · rw [if_pos hc]
    obtain ⟨hle, hfree, hmin⟩ := firstFreeSuffixAux_spec index cand (index.length + 1) 2
      (by
        obtain ⟨j, hj, hf⟩ := exists_free_suffix index cand 2
        exact ⟨j, hj, hf⟩)
    refine ⟨hfree, ?_, ?_⟩
    · intro h
      rw [h] at hc
      cases hc
    · intro _
      exact ⟨firstFreeSuffixAux index cand (index.length + 1) 2, hle, rfl, hfree, hmin⟩
  · rw [if_neg hc]
    rw [Bool.not_eq_true] at hc
    exact ⟨hc, fun _ => rfl, fun h => absurd h (by rw [hc]; simp)⟩

theorem ne_append_suffix (s t : String) (ht : t.data ≠ []) : s ≠ s ++ t := by
  intro h
  have hd := congrArg (fun x => x.data.length) h
  simp only [String.data_append, List.length_append] at hd
  have hpos : 0 < t.data.length := List.length_pos.mpr ht
  omega

theorem append_hyphen_two (cand : String) : cand ++ "-" ++ "2" = cand ++ "-2" := by
  cases cand with
  | mk l =>
    show String.mk ((l ++ ['-']) ++ ['2']) = String.mk (l ++ ['-', '2'])
    rw [List.append_assoc]
    rfl

theorem jsNatStr_two : jsNatStr 2 = "2" := by
  unfold jsNatStr
  rw [show natDigits 2 = ['2'] from by unfold natDigits; decide]

/-- C6: the id chosen by `engagement_create` is never one already in
the index — the candidate is kept when unused, otherwise the first
unused numeric suffix from 2 is appended — existing records and index
entries are never overwritten, and two creations with the same target
and date from an empty index yield distinct ids, the second ending in
"-2". -/
theorem C6_collision_policy (store : Store) (target : String) (scope : List String)
    (roe : Option String) (date t : String) :
    ((createEngagementS store target scope roe date t).2.id ∈
      store.index.map (fun e => e.id) → False) ∧
    (createEngagementS store target scope roe date t).2.id =
      resolveId store.index (candidateId date target) ∧
    (idTaken store.index (candidateId date target) = false →
      (createEngagementS store target scope roe date t).2.id = candidateId date target) ∧
    (idTaken store.index (candidateId date target) = true →
      ∃ k, 2 ≤ k ∧
        (createEngagementS store target scope roe date t).2.id =
          candidateId date target ++ "-" ++ jsNatStr k ∧
        idTaken store.index (candidateId date target ++ "-" ++ jsNatStr k) = false ∧
        ∀ j, 2 ≤ j → j < k →
          idTaken store.index (candidateId date target ++ "-" ++ jsNatStr j) = true) ∧
    (∀ i, i ≠ (createEngagementS store target scope roe date t).2.id →
      (createEngagementS store target scope roe date t).1.metadataOf i =
        store.metadataOf i) ∧
    (∀ e ∈ store.index, e.id ≠ (createEngagementS store target scope roe date t).2.id →
      e ∈ (createEngagementS store target scope roe date t).1.index) ∧
    (store.index = [] →
      (createEngagementS (createEngagementS store target scope roe date t).1
        target scope roe date t).2.id =
        (createEngagementS store target scope roe date t).2.id ++ "-2" ∧
      (createEngagementS store target scope roe date t).2.id ≠
        (createEngagementS store target scope roe date t).2.id ++ "-2") := by
  obtain ⟨hfree, hkeep, hcoll⟩ := resolveId_spec store.index (candidateId date target)
  refine ⟨?_, rfl, hkeep, hcoll, ?_, ?_, ?_⟩
  · intro hmem
    have h2 : idTaken store.index (resolveId store.index (candidateId date target)) = true :=
      (idTaken_iff _ _).mpr hmem
    cases hfree.symm.trans h2
  · intro i hi
    have hi2 : i ≠ resolveId store.index (candidateId date target) := hi
    show (if i = resolveId store.index (candidateId date target) then _ else store.metadataOf i)
      = store.metadataOf i
    rw [if_neg hi2]
  · intro e hmem hne
    show e ∈ upsertEntry store.index
      (buildIndexEntry (createEngagementS store target scope roe date t).2)
    exact mem_upsertEntry_of_ne store.index _ e hmem hne
  · intro hidx
    have hid1 : (createEngagementS store target scope roe date t).2.id =
        candidateId date target := by
      show resolveId store.index (candidateId date target) = _
      rw [hidx]
      rfl
    have hentry : (createEngagementS store target scope roe date t).1.index =
        [buildIndexEntry (createEngagementS store target scope roe date t).2] := by
      have h0 : (createEngagementS store target scope roe date t).1.index =
          upsertEntry store.index
            (buildIndexEntry (createEngagementS store target scope roe date t).2) := rfl
      rw [h0, hidx]
      rfl
    have heid : (buildIndexEntry (createEngagementS store target scope roe date t).2).id =
        candidateId date target := hid1
    have htaken : idTaken
        [buildIndexEntry (createEngagementS store target scope roe date t).2]
        (candidateId date target) = true := by
      simp [idTaken, heid]
    have hne2 : candidateId date target ≠ candidateId date target ++ "-" ++ jsNatStr 2 := by
      intro hcontra
      have hd := congrArg (fun x => x.data.length) hcontra
      simp only [] at hd
      rw [show (candidateId date target ++ "-" ++ jsNatStr 2).data =
        (((candidateId date target).data ++ ['-']) ++ natDigits 2) from suffix_data _ 2] at hd
      simp only [List.length_append] at hd
      have hpos : 0 < (natDigits 2).length := List.length_pos.mpr (natDigits_ne_nil 2)
      omega
    have hfree2 : idTaken
        [buildIndexEntry (createEngagementS store target scope roe date t).2]
        (candidateId date target ++ "-" ++ jsNatStr 2) = false := by
      simp [idTaken, heid, hne2]
    have hid2 : (createEngagementS (createEngagementS store target scope roe date t).1
        target scope roe date t).2.id =
        candidateId date target ++ "-" ++ jsNatStr 2 := by
      show resolveId (createEngagementS store target scope roe date t).1.index
        (candidateId date target) = _
      rw [hentry]
      unfold resolveId
      rw [if_pos htaken]
      show candidateId date target ++ "-" ++
        jsNatStr (firstFreeSuffixAux _ (candidateId date target) 2 2) = _
      unfold firstFreeSuffixAux
      rw [hfree2]
      show candidateId date target ++ "-" ++ jsNatStr 2 = _
      rfl
    constructor
    · rw [hid2, hid1, jsNatStr_two, append_hyphen_two]
    · rw [hid1]
      have := ne_append_suffix (candidateId date target) "-2" (by decide)
      exact this

theorem C6_collision_policy_witness :
    (createEngagementS
      (createEngagementS sampleStore "Test Corp" [] none "2025-01-01" "T1").1
      "Test Corp" [] none "2025-01-01" "T1").2.id =
      (createEngagementS sampleStore "Test Corp" [] none "2025-01-01" "T1").2.id ++ "-2" ∧
    (createEngagementS sampleStore "Test Corp" [] none "2025-01-01" "T1").2.id ≠
      (createEngagementS sampleStore "Test Corp" [] none "2025-01-01" "T1").2.id ++ "-2" :=
  (C6_collision_policy sampleStore "Test Corp" [] none "2025-01-01" "T1").2.2.2.2.2.2 rfl

/-! ## Slug shape -/

theorem collapseRunsAux_chars (l : List Char) :
    ∀ flag, ∀ c ∈ collapseRunsAux flag l, isSlugChar c = true ∨ c = '-' := by
  induction l with
  | nil =>
    intro flag c hc
    cases hc
  | cons x rest ih =>
    intro flag c hc
    unfold collapseRunsAux at hc
    by_cases hx : isSlugChar x = true
    · rw [if_pos hx] at hc
      rcases List.mem_cons.mp hc with hc | hc
      · subst hc
        exact Or.inl hx
      · exact ih false c hc
    · rw [if_neg hx] at hc
      cases flag with
      | true =>
        rw [if_pos rfl] at hc
        exact ih true c hc
      | false =>
        rw [if_neg (by decide)] at hc
        rcases List.mem_cons.mp hc with hc | hc
        · subst hc
          exact Or.inr rfl
        · exact ih true c hc

theorem collapseRunsAux_true_head (l : List Char) :
    ∀ c, (collapseRunsAux true l).head? = some c → isSlugChar c = true := by
  induction l with
  | nil =>
    intro c h
    cases h
  | cons x rest ih =>
    intro c h
    unfold collapseRunsAux at h
    by_cases hx : isSlugChar x = true
    · rw [if_pos hx] at h
      injection h with h
      subst h
      exact hx
    · rw [if_neg hx, if_pos rfl] at h
      exact ih c h

theorem chain'_collapseRunsAux (l : List Char) :
    ∀ flag, List.Chain' (fun a b => ¬(a = '-' ∧ b = '-')) (collapseRunsAux flag l) := by
  induction l with
  | nil =>
    intro flag
    exact List.chain'_nil
  | cons x rest ih =>
    intro flag
    unfold collapseRunsAux
    by_cases hx : isSlugChar x = true
    · rw [if_pos hx, List.chain'_cons']
      refine ⟨?_, ih false⟩
      rintro y - ⟨hx2, -⟩
      subst hx2
      rw [show isSlugChar '-' = false from by decide] at hx
      cases hx
    · rw [if_neg hx]
      cases flag with
      | true =>
        rw [if_pos rfl]
        exact ih true
      | false =>
        rw [if_neg (by decide), List.chain'_cons']
        refine ⟨?_, ih true⟩
        rintro y hy ⟨-, h2⟩
        rw [Option.mem_def] at hy
        have hslug := collapseRunsAux_true_head rest y hy
        subst h2
        rw [show isSlugChar '-' = false from by decide] at hslug
        cases hslug

theorem head?_take40 {α : Type} (l : List α) : (l.take 40).head? = l.head? := by
  cases l <;> rfl

theorem head?_of_dropLast {α : Type} (l : List α) (c : α)
    (h : l.dropLast.head? = some c) : l.head? = some c := by
  cases l with
  | nil => cases h
  | cons x rest =>
    cases rest with
    | nil => cases h
    | cons y rest2 => exact h

theorem trimHyphens_head (l : List Char) (c : Char)
    (h : (trimHyphens l).head? = some c) :
    (l.head? = some c ∧ c ≠ '-') ∨ (l.tail.head? = some c ∧ l.head? = some '-') := by
  unfold trimHyphens at h
  by_cases h1 : l.head? = some '-'
  · rw [if_pos h1] at h
    by_cases h2 : l.tail.getLast? = some '-'
    · rw [if_pos h2] at h
      exact Or.inr ⟨head?_of_dropLast _ _ h, h1⟩
    · rw [if_neg h2] at h
      exact Or.inr ⟨h, h1⟩
  · rw [if_neg h1] at h
    by_cases h2 : l.getLast? = some '-'
    · rw [if_pos h2] at h
      have hh := head?_of_dropLast _ _ h
      refine Or.inl ⟨hh, ?_⟩
      intro hc
      subst hc
      exact h1 hh
    · rw [if_neg h2] at h
      refine Or.inl ⟨h, ?_⟩
      intro hc
      subst hc
      exact h1 h

theorem trimHyphens_subset (l : List Char) : trimHyphens l ⊆ l := by
  unfold trimHyphens
  by_cases h1 : l.head? = some '-'
  · rw [if_pos h1]
    by_cases h2 : l.tail.getLast? = some '-'
    · rw [if_pos h2]
      intro c hc
      exact List.tail_subset l (List.dropLast_subset _ hc)
    · rw [if_neg h2]
      exact List.tail_subset l
  · rw [if_neg h1]
    by_cases h2 : l.getLast? = some '-'
    · rw [if_pos h2]
      exact List.dropLast_subset l
    · rw [if_neg h2]
      exact fun c hc => hc

theorem chain'_trimHyphens (l : List Char) (R : Char → Char → Prop)
    (h : List.Chain' R l) : List.Chain' R (trimHyphens l) := by
  unfold trimHyphens
  by_cases h1 : l.head? = some '-'
  · rw [if_pos h1]
    by_cases h2 : l.tail.getLast? = some '-'
    · rw [if_pos h2]
      exact List.Chain'.prefix h.tail ( List.dropLast_prefix _)
    · rw [if_neg h2]
      exact h.tail
  · rw [if_neg h1]
    by_cases h2 : l.getLast? = some '-'
    · rw [if_pos h2]
      exact List.Chain'.prefix h ( List.dropLast_prefix _)
    · rw [if_neg h2]
      exact h

/-- C5 (amended): the candidate id is the ISO date, a hyphen, and the
slug of the target; the slug is at most 40 characters, never begins
with a hyphen, contains only lowercase ASCII alphanumerics and single
(non-adjacent) hyphens — but, because the source trims boundary
hyphens before the 40-character truncation, the slug may END with a
hyphen when the truncation cuts immediately after one. -/
theorem C5_candidate_id_shape (date target : String) (store : Store)
    (scope : List String) (roe : Option String) (t : String) :
    (createEngagementS store target scope roe date t).2.id =
      resolveId store.index (candidateId date target) ∧
    candidateId date target = date ++ "-" ++ slugify target ∧
    slugify target =
      String.mk ((trimHyphens (collapseRunsAux false (target.data.map Char.toLower))).take 40) ∧
    (slugify target).data.length ≤ 40 ∧
    (∀ c, (slugify target).data.head? = some c → c ≠ '-') ∧
    (∀ c ∈ (slugify target).data, isSlugChar c = true ∨ c = '-') ∧
    List.Chain' (fun a b => ¬(a = '-' ∧ b = '-')) (slugify target).data := by
  refine ⟨rfl, rfl, rfl, ?_, ?_, ?_, ?_⟩
  · show ((trimHyphens (collapseRuns (target.data.map Char.toLower))).take 40).length ≤ 40
    exact List.length_take_le 40 _
  · intro c h
    have h2 : ((trimHyphens (collapseRuns (target.data.map Char.toLower))).take 40).head? =
        some c := h
    rw [head?_take40] at h2
    rcases trimHyphens_head _ c h2 with ⟨hh, hne⟩ | ⟨hh, hhd⟩
    · exact hne
    · rcases hout : collapseRuns (target.data.map Char.toLower) with _ | ⟨x, rest⟩
      · rw [hout] at hhd
        cases hhd
      · rw [hout] at hhd hh
        injection hhd with hx
        subst hx
        have hchain := chain'_collapseRunsAux (target.data.map Char.toLower) false
        rw [show collapseRuns (target.data.map Char.toLower) =
          collapseRunsAux false (target.data.map Char.toLower) from rfl] at hout
        rw [hout, List.chain'_cons'] at hchain
        intro hc
        subst hc
        exact hchain.1 '-' (by rw [Option.mem_def]; exact hh) ⟨rfl, rfl⟩
  · intro c hc
    have hc2 : c ∈ trimHyphens (collapseRuns (target.data.map Char.toLower)) :=
      List.take_subset 40 _ hc
    have hc3 : c ∈ collapseRuns (target.data.map Char.toLower) :=
      trimHyphens_subset _ hc2
    exact collapseRunsAux_chars (target.data.map Char.toLower) false c hc3
  · have hchain := chain'_collapseRunsAux (target.data.map Char.toLower) false
    exact List.Chain'.prefix (chain'_trimHyphens _ _ hchain) ( List.take_prefix 40 _)

theorem C5_candidate_id_shape_witness :
    (slugify "Test Corp").data.length ≤ 40 ∧
    (∀ c ∈ (slugify "Test Corp").data, isSlugChar c = true ∨ c = '-') :=
  ⟨(C5_candidate_id_shape "2025-01-01" "Test Corp" sampleStore [] none "T1").2.2.2.1,
   (C5_candidate_id_shape "2025-01-01" "Test Corp" sampleStore [] none "T1").2.2.2.2.2.1⟩

/-- C5 counterexample: for a target of 39 letters, a space, and one
more letter, the trim-then-truncate order in `slugify` yields a slug
that is exactly 40 characters and ENDS IN A HYPHEN, so the candidate
id does not satisfy the claimed "no trailing hyphen". -/
theorem C5_counterexample :
    cexTarget = String.mk (List.replicate 39 'a' ++ [' ', 'b']) ∧
    slugify cexTarget = String.mk (List.replicate 39 'a' ++ ['-']) ∧
    (slugify cexTarget).data.getLast? = some '-' ∧
    (slugify cexTarget).data.length = 40 ∧
    candidateId "2025-01-01" cexTarget =
      "2025-01-01-" ++ String.mk (List.replicate 39 'a' ++ ['-']) := by
  refine ⟨rfl, by decide, by decide, by decide, ?_⟩
  have hslug : slugify cexTarget = String.mk (List.replicate 39 'a' ++ ['-']) := by decide
  show "2025-01-01" ++ "-" ++ slugify cexTarget = _
  rw [hslug]
  decide

end Nyx
